import Mathlib

/-!
Verification of the Angular template-compiler core: a shallow embedding of the
IR naming phase (packages/compiler, template transform sources), of the
block-grammar validation rules for control-flow blocks, and of the
change-detection callback scheduler, together with theorems about the
properties the specification states for them.

The naming-phase definitions are translated from the addNamesToView /
getVariableName / normalizeStylePropName / stripImportant functions of the
source.  In-place mutation of the IR graph becomes explicit state passing:
the per-job counter is a Nat threaded through, the per-unit name table is an
association list, and thrown exceptions become an Except error type with
internal errors kept distinct from user-facing template syntax errors.
-/

namespace Ng

/-- Kind of a semantic variable (ir.SemanticVariableKind): component context,
named identifier, or any other kind (the default case of getVariableName). -/
inductive SemanticVariableKind where
  | context
  | identifier
  | other
deriving DecidableEq, Repr

/-- A semantic variable (ir.SemanticVariable): its kind, its name field
(null until the naming phase fills it), and its source identifier. -/
structure SemanticVariable where
  kind : SemanticVariableKind
  name : Option String
  identifier : String
deriving DecidableEq, Repr

/-- A variable-read expression (ir.ReadVariableExpr): a cross-reference id of
the variable it reads and a name field that starts null and is filled by the
naming phase. -/
structure VarRead where
  xref : Nat
  name : Option String
deriving DecidableEq, Repr

/-- Element namespace used when deriving a child view's base name
(the namespace argument of the Template operation). -/
inductive TagNamespace where
  | html
  | svg
  | math
deriving DecidableEq, Repr

mutual

/-- An IR operation (ir.OpKind cases handled by addNamesToView, plus a
catch-all for the kinds its switch ignores).  Each operation carries the
list of ReadVariableExpr expressions occurring in it, which is what
ir.visitExpressionsInOp enumerates during the second pass.  The Template
operation holds its child compilation unit directly (in the source it holds
an xref resolved through the job's view map; views form a tree). -/
inductive Op where
  | property (name : String) (isAnimationTrigger : Bool) (reads : List VarRead)
  | hostProperty (name : String) (isAnimationTrigger : Bool) (reads : List VarRead)
  | listener (handlerFnName : Option String) (slot : Option Nat) (tag : Option String)
      (name : String) (isAnimationListener : Bool) (animationPhase : String)
      (reads : List VarRead)
  | varDecl (xref : Nat) (v : SemanticVariable) (reads : List VarRead)
  | template (child : CompilationUnit) (slot : Option Nat) (tag : String)
      (ns : TagNamespace) (reads : List VarRead)
  | styleProp (name : String) (reads : List VarRead)
  | classProp (name : String) (reads : List VarRead)
  | other (reads : List VarRead)

/-- A compilation unit (one view): its function-name field (null until the
naming phase assigns it), whether it is a HostBindingCompilationUnit (as
opposed to a ViewCompilationUnit), and its ordered operation list. -/
inductive CompilationUnit where
  | mk (fnName : Option String) (isHostBinding : Bool) (ops : List Op)

end

/-- Compiler errors.  The naming phase only ever throws plain internal
errors; user-facing template syntax errors are a distinct class. -/
inductive Err where
  | internal (msg : String)
  | templateErr (msg : String)
deriving DecidableEq, Repr

/-- Modelled from the spec: sanitizeIdentifier (parse_util, not included
under src) sanitizes a derived name into a valid identifier by replacing
every character that is not a letter, digit or underscore with an
underscore. -/
def sanitizeIdentifier (name : String) : String :=
  String.mk (name.data.map fun c => if c.isAlphanum || c = '_' then c else '_')

/-- The decimal digit character for a value below ten. -/
def digitChar (d : Nat) : Char := Char.ofNat (48 + d)

/-- Fuel-driven accumulator loop producing the decimal digits of a number,
most significant first. -/
def natDigitsCore : Nat → Nat → List Char → List Char
  | 0, _, acc => acc
  | fuel + 1, n, acc =>
    if n < 10 then digitChar n :: acc
    else natDigitsCore fuel (n / 10) (digitChar (n % 10) :: acc)

/-- Decimal rendering of a natural number, as JavaScript string interpolation
renders the counter and slot values. -/
def natToDecimal (n : Nat) : String := String.mk (natDigitsCore (n + 1) n [])

/-- Numeric value of a decimal digit character. -/
def digitVal (c : Char) : Nat := c.toNat - 48

/-- Decimal parsing of a digit list, most significant first. -/
def digitsToNat (l : List Char) : Nat := l.foldl (fun a c => a * 10 + digitVal c) 0

/-- The name getVariableName builds for a variable of the given kind with
the given identifier at counter value k: ctx_r followed by k for context
variables, the identifier followed by an underscore and k for named
identifiers, and _r followed by k otherwise. -/
def mkVarName (kind : SemanticVariableKind) (ident : String) (k : Nat) : String :=
  match kind with
  | .context => "ctx_r" ++ natToDecimal k
  | .identifier => ident ++ "_" ++ natToDecimal k
  | .other => "_r" ++ natToDecimal k

/-- getVariableName from the source: if the variable already has a name it
is returned unchanged, otherwise a fresh name is built from the shared
counter (state.index, incremented) and stored on the variable. -/
def getVariableName (v : SemanticVariable) (state : Nat) :
    String × SemanticVariable × Nat :=
  match v.name with
  | some n => (n, v, state)
  | none =>
    let n := mkVarName v.kind v.identifier state
    (n, { v with name := some n }, state + 1)

/-- JavaScript String.replace with a string pattern replaces only the first
occurrence; this is tag.replace of a hyphen by an underscore. -/
def replaceFirstChar : List Char → Char → Char → List Char
  | [], _, _ => []
  | c :: cs, a, b => if c = a then b :: cs else c :: replaceFirstChar cs a b

/-- Modelled from the spec: the conversion helper (named after the
namespace-prefixing function in conversion.ts, not included under src) that
prepends the element namespace to a tag name when deriving a child view's
base name. -/
def tagWithNamespace (tag : String) (ns : TagNamespace) : String :=
  match ns with
  | .html => tag
  | .svg => ":svg:" ++ tag
  | .math => ":math:" ++ tag

/-- Whether the first list is an initial segment of the second
(String.startsWith on character lists). -/
def startsWithChars : List Char → List Char → Bool
  | [], _ => true
  | _ :: _, [] => false
  | p :: ps, c :: cs => p = c && startsWithChars ps cs

/-- Index of the first occurrence of the pattern in the list
(String.indexOf), or none. -/
def firstOccurrenceAux (pat : List Char) : List Char → Option Nat
  | [] => none
  | c :: rest =>
    if startsWithChars pat (c :: rest) then some 0
    else (firstOccurrenceAux pat rest).map (· + 1)

/-- stripImportant from the source: strips an !important suffix out of the
given style or class name, keeping the text before its first occurrence. -/
def stripImportant (name : String) : String :=
  match firstOccurrenceAux "!important".data name.data with
  | some i => String.mk (name.data.take i)
  | none => name

/-- Character-list core of hyphenation: a hyphen is inserted between each
lowercase letter and the uppercase letter following it, and everything is
lowercased. -/
def hyphenateCore : List Char → List Char
  | [] => []
  | [c] => [c.toLower]
  | a :: b :: rest =>
    if a.isLower && b.isUpper then a.toLower :: '-' :: hyphenateCore (b :: rest)
    else a.toLower :: hyphenateCore (b :: rest)

/-- Modelled from the spec: hyphenate (render3/view/style_parser, not
included under src) converts a camelCase style property name to
hyphen-case. -/
def hyphenate (s : String) : String := String.mk (hyphenateCore s.data)

/-- normalizeStylePropName from the source: hyphenates a style prop name
unless it is a CSS custom property (leading double hyphen). -/
def normalizeStylePropName (name : String) : String :=
  if startsWithChars "--".data name.data then name else hyphenate name

/-- Lookup in the per-unit variable name table (a JavaScript Map from xref
to name; insertion prepends, so the first match is the latest binding). -/
def lookupVarName : List (Nat × String) → Nat → Option String
  | [], _ => none
  | (x, n) :: rest, k => if x = k then some n else lookupVarName rest k

/-- Second-pass step on one ReadVariableExpr: a read that already has a name
is left alone; otherwise the name recorded for its xref is copied in, and a
missing entry is the fatal internal error of the source (Variable not yet
named). -/
def resolveRead (vn : List (Nat × String)) (r : VarRead) : Except Err VarRead :=
  match r.name with
  | some _ => .ok r
  | none =>
    match lookupVarName vn r.xref with
    | some n => .ok { r with name := some n }
    | none => .error (.internal ("Variable " ++ natToDecimal r.xref ++ " not yet named"))

/-- Second-pass resolution of all reads of one operation, first failure
aborting. -/
def resolveReads (vn : List (Nat × String)) : List VarRead → Except Err (List VarRead)
  | [] => .ok []
  | r :: rest =>
    match resolveRead vn r with
    | .error e => .error e
    | .ok r' =>
      match resolveReads vn rest with
      | .error e => .error e
      | .ok rest' => .ok (r' :: rest')

/-- Replace the expression list of an operation, leaving every other field
(including a Template operation's child view) unchanged. -/
def Op.withReads (op : Op) (reads : List VarRead) : Op :=
  match op with
  | .property name anim _ => .property name anim reads
  | .hostProperty name anim _ => .hostProperty name anim reads
  | .listener h s t n a p _ => .listener h s t n a p reads
  | .varDecl x v _ => .varDecl x v reads
  | .template c s t ns _ => .template c s t ns reads
  | .styleProp name _ => .styleProp name reads
  | .classProp name _ => .classProp name reads
  | .other _ => .other reads

/-- The expression list of an operation. -/
def Op.reads (op : Op) : List VarRead :=
  match op with
  | .property _ _ reads => reads
  | .hostProperty _ _ reads => reads
  | .listener _ _ _ _ _ _ reads => reads
  | .varDecl _ _ reads => reads
  | .template _ _ _ _ reads => reads
  | .styleProp _ reads => reads
  | .classProp _ reads => reads
  | .other reads => reads

/-- Second pass of addNamesToView on one operation: visit the expressions of
the operation and resolve each variable read against the unit's name
table. -/
def resolveOp (vn : List (Nat × String)) (op : Op) : Except Err Op :=
  match resolveReads vn (Op.reads op) with
  | .error e => .error e
  | .ok reads' => .ok (Op.withReads op reads')

/-- Second pass of addNamesToView over the unit's operation list. -/
def resolveOps (vn : List (Nat × String)) : List Op → Except Err (List Op)
  | [] => .ok []
  | op :: rest =>
    match resolveOp vn op with
    | .error e => .error e
    | .ok op' =>
      match resolveOps vn rest with
      | .error e => .error e
      | .ok rest' => .ok (op' :: rest')

mutual

/-- addNamesToView from the source: assigns the unit's function name when it
is still null, runs the first pass over the operations (naming listeners and
variables, normalizing style and class property names, recursing into child
views of Template operations with the shared counter), then runs the second
pass pushing variable names into reads.  The mutable state.index counter is
the Nat argument, and the varNames map is the returned association list. -/
def addNamesToView (compat : Bool) (fnSuffix : String) (u : CompilationUnit)
    (baseName : String) (st : Nat) : Except Err (CompilationUnit × Nat) :=
  match u with
  | .mk fnName0 isHB ops =>
    let fn := match fnName0 with
      | none => sanitizeIdentifier (baseName ++ "_" ++ fnSuffix)
      | some n => n
    match processOps compat fnSuffix fn baseName isHB ops st [] with
    | .error e => .error e
    | .ok (ops1, st1, vn) =>
      match resolveOps vn ops1 with
      | .error e => .error e
      | .ok ops2 => .ok (.mk (some fn) isHB ops2, st1)

/-- The first-pass loop of addNamesToView over the unit's operation list,
threading the shared counter and accumulating the unit's variable name
table. -/
def processOps (compat : Bool) (fnSuffix : String) (fn : String) (baseName : String)
    (isHB : Bool) (ops : List Op) (st : Nat) (vn : List (Nat × String)) :
    Except Err (List Op × Nat × List (Nat × String)) :=
  match ops with
  | [] => .ok ([], st, vn)
  | op :: rest =>
    match processOp compat fnSuffix fn baseName isHB op st vn with
    | .error e => .error e
    | .ok (op', st', vn') =>
      match processOps compat fnSuffix fn baseName isHB rest st' vn' with
      | .error e => .error e
      | .ok (rest', st'', vn'') => .ok (op' :: rest', st'', vn'')

/-- The body of the first-pass switch of addNamesToView for one operation.
Animation properties get an at-sign prefix; listeners get their handler
names (compatibility mode with a host-binding unit uses the legacy scheme,
otherwise an unset handler name requires an assigned slot and derives the
name from the unit function name, sanitized tag or host, binding name,
animation phase when present, and slot); variables are named through
getVariableName and recorded in the name table; Template operations recurse
into the child view with a derived base name; style prop names are
hyphen-normalized and, in compatibility mode, style and class prop names
lose their !important suffix. -/
def processOp (compat : Bool) (fnSuffix : String) (fn : String) (baseName : String)
    (isHB : Bool) (op : Op) (st : Nat) (vn : List (Nat × String)) :
    Except Err (Op × Nat × List (Nat × String)) :=
  match op with
  | .property name anim reads =>
    .ok (.property (if anim then "@" ++ name else name) anim reads, st, vn)
  | .hostProperty name anim reads =>
    .ok (.hostProperty (if anim then "@" ++ name else name) anim reads, st, vn)
  | .listener hfn slot tag name isAnimL phase reads =>
    if compat && isHB then
      .ok (.listener (some (sanitizeIdentifier (baseName ++ "_" ++ name ++ "_HostBindingHandler")))
        slot tag name isAnimL phase reads, st, vn)
    else
      match hfn with
      | some _ => .ok (.listener hfn slot tag name isAnimL phase reads, st, vn)
      | none =>
        match slot with
        | none => .error (.internal "Expected a slot to be assigned")
        | some s =>
          let safeTagName := match tag with
            | some t => String.mk (replaceFirstChar t.data '-' '_')
            | none => "host"
          if isAnimL then
            .ok (.listener
              (some (sanitizeIdentifier (fn ++ "_" ++ safeTagName ++ "_animation_" ++ name ++
                "_" ++ phase ++ "_" ++ natToDecimal s ++ "_listener")))
              slot tag ("@" ++ name ++ "." ++ phase) isAnimL phase reads, st, vn)
          else
            .ok (.listener
              (some (sanitizeIdentifier (fn ++ "_" ++ safeTagName ++ "_" ++ name ++
                "_" ++ natToDecimal s ++ "_listener")))
              slot tag name isAnimL phase reads, st, vn)
  | .varDecl xref v reads =>
    let r := getVariableName v st
    .ok (.varDecl xref r.2.1 reads, r.2.2, (xref, r.1) :: vn)
  | .template child slot tag ns reads =>
    if isHB then .error (.internal "AssertionError: must be compiling a component")
    else
      match slot with
      | none => .error (.internal "Expected slot to be assigned")
      | some s =>
        match addNamesToView compat fnSuffix child
            (baseName ++ "_" ++ tagWithNamespace tag ns ++ "_" ++ natToDecimal s) st with
        | .error e => .error e
        | .ok (child', st') => .ok (.template child' slot tag ns reads, st', vn)
  | .styleProp name reads =>
    let n1 := normalizeStylePropName name
    .ok (.styleProp (if compat then stripImportant n1 else n1) reads, st, vn)
  | .classProp name reads =>
    .ok (.classProp (if compat then stripImportant name else name) reads, st, vn)
  | .other reads => .ok (.other reads, st, vn)

end

/-- The job's compatibility mode (ir.CompatibilityMode). -/
inductive CompatibilityMode where
  | normal
  | templateDefinitionBuilder
deriving DecidableEq, Repr

/-- A compilation job: the root unit (child views hang off its Template
operations), the component name, the job function-name suffix, and the
compatibility mode. -/
structure CompilationJob where
  root : CompilationUnit
  componentName : String
  fnSuffix : String
  compatibility : CompatibilityMode

/-- phaseNaming from the source: names the root unit (and recursively every
nested view) with a fresh shared counter starting at zero. -/
def phaseNaming (job : CompilationJob) : Except Err CompilationJob :=
  match addNamesToView (job.compatibility == .templateDefinitionBuilder) job.fnSuffix
      job.root job.componentName 0 with
  | .error e => .error e
  | .ok (root', _) => .ok { job with root := root' }

/-- The function-name field of a unit. -/
def CompilationUnit.fnNameOf : CompilationUnit → Option String
  | .mk fn _ _ => fn

/-- Whether the unit is a HostBindingCompilationUnit. -/
def CompilationUnit.isHB : CompilationUnit → Bool
  | .mk _ hb _ => hb

/-- The operation list of a unit. -/
def CompilationUnit.opsOf : CompilationUnit → List Op
  | .mk _ _ ops => ops

mutual

/-- All units of a view tree, the unit itself first, then the units hanging
off its Template operations in document order. -/
def collectUnits : CompilationUnit → List CompilationUnit
  | .mk fn hb ops => .mk fn hb ops :: collectUnitsOps ops

/-- Units reachable from an operation list. -/
def collectUnitsOps : List Op → List CompilationUnit
  | [] => []
  | op :: rest => collectUnitsOp op ++ collectUnitsOps rest

/-- Units reachable from one operation (the subtree of a Template
operation). -/
def collectUnitsOp : Op → List CompilationUnit
  | .template child _ _ _ _ => collectUnits child
  | _ => []

end

mutual

/-- All semantic variables of a view tree, in the order the first naming
pass reaches them (a Template operation contributes its child view's
variables at its own position, matching the shared-counter order). -/
def collectVarsUnit : CompilationUnit → List SemanticVariable
  | .mk _ _ ops => collectVarsOps ops

/-- Variables of an operation list in first-pass order. -/
def collectVarsOps : List Op → List SemanticVariable
  | [] => []
  | op :: rest => collectVarsOp op ++ collectVarsOps rest

/-- Variables of one operation: the variable of a Variable declaration, or
the child view's variables for a Template operation. -/
def collectVarsOp : Op → List SemanticVariable
  | .varDecl _ v _ => [v]
  | .template child _ _ _ _ => collectVarsUnit child
  | _ => []

end

/-- Whether every variable of the view tree is still unnamed (the state of a
freshly lowered job before the naming phase runs). -/
def allVarsUnnamed (u : CompilationUnit) : Bool :=
  (collectVarsUnit u).all fun v => v.name == none

/-- The trailing decimal index of a generated variable name: its maximal
suffix of digit characters, parsed; none when the name does not end in a
digit. -/
def varIndexOf (s : String) : Option Nat :=
  let ds := (s.data.reverse.takeWhile Char.isDigit).reverse
  if ds.isEmpty then none else some (digitsToNat ds)

/-- The trailing decimal index of a variable's assigned name, if any. -/
def nameIndexOf (v : SemanticVariable) : Option Nat :=
  match v.name with
  | some s => varIndexOf s
  | none => none

/-- The precondition of the idempotence claim exactly as stated: every
unit's function name, every listener's handler name and every variable's
name in the view tree is already non-null. -/
def namesPopulated (u : CompilationUnit) : Bool :=
  (collectUnits u).all fun w =>
    w.fnNameOf.isSome && w.opsOf.all fun op =>
      match op with
      | .listener h _ _ _ _ _ _ => h.isSome
      | .varDecl _ v _ => v.name.isSome
      | _ => true

/-- Shallow per-operation conditions under which the first naming pass
leaves an operation of a non-compatibility job untouched: no animation
trigger flag on properties, handler and variable names already assigned,
Template slots assigned, style prop names already hyphen-normalized, and
every read already named. -/
def renamedOp (op : Op) : Bool :=
  ((Op.reads op).all fun r => r.name.isSome) &&
    match op with
    | .property _ anim _ => !anim
    | .hostProperty _ anim _ => !anim
    | .listener h _ _ _ _ _ _ => h.isSome
    | .varDecl _ v _ => v.name.isSome
    | .template _ slot _ _ _ => slot.isSome
    | .styleProp name _ => normalizeStylePropName name == name
    | .classProp _ _ => true
    | .other _ => true

/-- Shallow per-unit renamed condition: the unit is a component view unit,
its function name is assigned, and all its own operations satisfy the
per-operation renamed conditions. -/
def unitOKB (w : CompilationUnit) : Bool :=
  w.fnNameOf.isSome && !w.isHB && w.opsOf.all renamedOp

/-- A view tree on which a naming pass has already completed: every unit of
the tree satisfies the shallow renamed condition. -/
def renamedUnit (u : CompilationUnit) : Bool :=
  (collectUnits u).all unitOKB

/-- Specification of the second pass on one read: a read that still has no
name receives the entry recorded for its xref in the unit's name table. -/
def readSpec (vn : List (Nat × String)) (r : VarRead) : VarRead :=
  match r.name with
  | some _ => r
  | none => { r with name := lookupVarName vn r.xref }

/-- Specification of the second pass on one operation: each of its reads is
resolved through the unit's name table. -/
def resolveSpec (vn : List (Nat × String)) (op : Op) : Op :=
  Op.withReads op ((Op.reads op).map (readSpec vn))

/-- Drop leading and trailing space characters of a character list. -/
def trimChars (l : List Char) : List Char :=
  ((l.dropWhile (· = ' ')).reverse.dropWhile (· = ' ')).reverse

/-- Split a character list at every occurrence of the separator. -/
def splitOnChar (sep : Char) : List Char → List (List Char)
  | [] => [[]]
  | c :: rest =>
    let r := splitOnChar sep rest
    if c = sep then [] :: r
    else
      match r with
      | [] => [[c]]
      | seg :: segs => (c :: seg) :: segs

/-- Whether a character may occur in a simple template identifier. -/
def isIdentChar (c : Char) : Bool := c.isAlphanum || c = '_' || c = '$'

/-- Result of parsing the parameters of a for-loop block. -/
structure ForLoopAst where
  itemName : String
  expression : String
  trackBy : String
  contextVars : List (String × String)
deriving DecidableEq, Repr

/-- Modelled from the spec: the loop-expression pattern of the for block
(the expression parameter must match identifier, the word of, then an
expression; the block-grammar parser itself is not included under src). -/
def matchForOf (mainExpr : String) : Option (String × String) :=
  let t := trimChars mainExpr.data
  match firstOccurrenceAux " of ".data t with
  | none => none
  | some i =>
    let item := t.take i
    let e := trimChars (t.drop (i + 4))
    if !item.isEmpty && item.all isIdentChar && !e.isEmpty then
      some (String.mk item, String.mk e)
    else none

/-- Modelled from the spec: recognition of a track parameter of a for
block (the keyword track followed by whitespace and the tracking
expression). -/
def matchTrack (param : String) : Option String :=
  let t := trimChars param.data
  if startsWithChars "track ".data t then some (String.mk (trimChars (t.drop 6)))
  else none

/-- Modelled from the spec: recognition of a let parameter of a for block
(the keyword let followed by whitespace and comma-separated bindings). -/
def matchLet (param : String) : Option String :=
  let t := trimChars param.data
  if startsWithChars "let ".data t then some (String.mk (trimChars (t.drop 4)))
  else none

/-- The enumerated set of context values a for-block let binding may name. -/
def forLoopVarSet : List String := ["$index", "$first", "$last", "$even", "$odd", "$count"]

/-- Modelled from the spec: parsing of the comma-separated bindings of one
let parameter; each binding must match name equals variable, the variable
must belong to the enumerated set, and a right-hand variable bound twice is
an error. -/
def parseLetParameter (text : String) (vars0 : List (String × String))
    (errs0 : List String) : List (String × String) × List String :=
  (splitOnChar ',' text.data).foldl
    (fun (p : List (String × String) × List String) seg =>
      let vars := p.1
      let errs := p.2
      match splitOnChar '=' seg with
      | [lhs, rhs] =>
        let name := String.mk (trimChars lhs)
        let target := String.mk (trimChars rhs)
        if name.isEmpty then
          (vars, errs ++ ["Invalid for loop \"let\" parameter. Parameter should match the pattern \"<name> = <variable name>\""])
        else if !forLoopVarSet.contains target then
          (vars, errs ++ ["Unknown \"let\" parameter variable \"" ++ target ++ "\". The allowed variables are: $index, $first, $last, $even, $odd, $count"])
        else if vars.any (fun q => q.2 == target) then
          (vars, errs ++ ["Duplicate \"let\" parameter variable \"" ++ target ++ "\""])
        else (vars ++ [(name, target)], errs)
      | _ =>
        (vars, errs ++ ["Invalid for loop \"let\" parameter. Parameter should match the pattern \"<name> = <variable name>\""]))
    (vars0, errs0)

/-- One step of the secondary-parameter loop of the for-block parser:
classify the parameter as let, track (only the first one is kept, a second
is an error), or unrecognized. -/
def forLoopParamStep (p : Option String × List (String × String) × List String)
    (param : String) : Option String × List (String × String) × List String :=
  let track := p.1
  let vars := p.2.1
  let errs := p.2.2
  match matchLet param with
  | some text =>
    let q := parseLetParameter text vars errs
    (track, q.1, q.2)
  | none =>
    match matchTrack param with
    | some t =>
      match track with
      | some _ => (track, vars, errs ++ ["For loop can only have one \"track\" expression"])
      | none => (some t, vars, errs)
    | none => (track, vars, errs ++ ["Unrecognized loop paramater \"" ++ param ++ "\""])

/-- Modelled from the spec: parseForLoopParameters of the block-grammar
parser (not included under src; its validation rules and error texts follow
the specification and the template-transform test expectations).  Errors
are collected; a missing expression, an expression not matching the loop
pattern, or a missing track parameter leaves the result empty. -/
def parseForLoopParameters (params : List String) : List String × Option ForLoopAst :=
  match params with
  | [] => (["For loop does not have an expression"], none)
  | mainExpr :: secondary =>
    match matchForOf mainExpr with
    | none =>
      (["Cannot parse expression. For loop expression must match the pattern \"<identifier> of <expression>\""], none)
    | some (item, expr) =>
      let r := secondary.foldl forLoopParamStep (none, [], [])
      match r.1 with
      | none => (r.2.2 ++ ["For loop must have a \"track\" expression"], none)
      | some t =>
        (r.2.2, some { itemName := item, expression := expr, trackBy := t, contextVars := r.2.1 })

/-- A secondary block inside a switch block body: a case block with its
parameter list, a default block with its parameter list, or a block of any
other name. -/
inductive SwitchSecondary where
  | caseBlock (params : List String)
  | defaultBlock (params : List String)
  | unknownBlock (name : String)
deriving DecidableEq, Repr

/-- The parsed form of a switch block: the discriminant expression and the
ordered case expressions, a null expression denoting the default case. -/
structure SwitchAst where
  expression : String
  cases : List (Option String)
deriving DecidableEq, Repr

/-- One step of the switch-body loop: a case block must carry exactly one
parameter; a default block must be unique and carry none; any other block
name is an error. -/
def switchBodyStep (p : List (Option String) × Bool × List String)
    (blk : SwitchSecondary) : List (Option String) × Bool × List String :=
  let cases := p.1
  let hasDefault := p.2.1
  let errs := p.2.2
  match blk with
  | .caseBlock ps =>
    if ps.length != 1 then
      (cases, hasDefault, errs ++ ["Case block must have exactly one parameter"])
    else (cases ++ [some (ps.headD "")], hasDefault, errs)
  | .defaultBlock ps =>
    if hasDefault then
      (cases, hasDefault, errs ++ ["Switch block can only have one \"default\" block"])
    else if ps.length != 0 then
      (cases, true, errs ++ ["Default block cannot have parameters"])
    else (cases ++ [none], true, errs)
  | .unknownBlock _ =>
    (cases, hasDefault, errs ++ ["Switch block can only contain \"case\" and \"default\" blocks"])

/-- Modelled from the spec: parseSwitchBlock of the block-grammar parser
(not included under src).  The switch block takes exactly one parameter,
its body may contain only case and default blocks, and at most one default;
errors are collected and any error leaves the result empty. -/
def parseSwitchBlock (params : List String) (body : List SwitchSecondary) :
    List String × Option SwitchAst :=
  let paramErrs :=
    if params.length != 1 then ["Switch block must have exactly one parameter"] else []
  let r := body.foldl switchBodyStep ([], false, paramErrs)
  if r.2.2.isEmpty then (r.2.2, some { expression := params.headD "", cases := r.1 })
  else (r.2.2, none)

/-- Modelled from the spec: parseDeferredTime of the defer-block parser
(not included under src): a run of decimal digits followed by an optional
unit, where the unit s multiplies by one thousand and the unit ms or no
unit at all means milliseconds; anything else cannot be parsed. -/
def parseDeferredTime (value : String) : Option Nat :=
  let ds := value.data.takeWhile Char.isDigit
  let rest := value.data.dropWhile Char.isDigit
  if ds.isEmpty then none
  else if rest = "s".data then some (digitsToNat ds * 1000)
  else if rest = "ms".data then some (digitsToNat ds)
  else if rest.isEmpty then some (digitsToNat ds)
  else none

/-- A parsed defer-block trigger. -/
inductive DeferredTrigger where
  | boundWhen (expr : String)
  | idle
  | immediate
  | timer (delay : Nat)
  | hover (reference : Option String)
  | interaction (reference : Option String)
  | viewport (reference : Option String)
deriving DecidableEq, Repr

/-- Modelled from the spec: creation of a timer trigger from its single
parameter; an unparsable numeral is the user-facing error named by the
tests. -/
def createTimerTrigger (param : String) : Except Err DeferredTrigger :=
  match parseDeferredTime param with
  | none => .error (.templateErr "Could not parse time value of trigger \"timer\"")
  | some delay => .ok (.timer delay)

/-- The kinds a defer trigger can have, keyed like the trigger table of the
parser (a when trigger is stored under the same key space as the on
triggers). -/
inductive DeferTriggerKind where
  | onWhen
  | idle
  | immediate
  | timer
  | hover
  | interaction
  | viewport
deriving DecidableEq, Repr

/-- The key under which a trigger kind is stored, as it appears in the
duplicate-trigger error message. -/
def DeferTriggerKind.keyName : DeferTriggerKind → String
  | .onWhen => "when"
  | .idle => "idle"
  | .immediate => "immediate"
  | .timer => "timer"
  | .hover => "hover"
  | .interaction => "interaction"
  | .viewport => "viewport"

/-- One trigger clause of a defer block: whether it belongs to the prefetch
set and its kind. -/
structure DeferTriggerClause where
  prefetch : Bool
  kind : DeferTriggerKind
deriving DecidableEq, Repr

/-- Modelled from the spec: the duplicate-trigger validation of the defer
block parser (not included under src): triggers are recorded per set (eager
or prefetch) keyed by kind, and a kind already present in the same set is
rejected with the duplicate-trigger error. -/
def validateDeferTriggersAux (eager pre : List DeferTriggerKind) :
    List DeferTriggerClause → Except Err (List DeferTriggerKind × List DeferTriggerKind)
  | [] => .ok (eager, pre)
  | c :: rest =>
    let seen := if c.prefetch then pre else eager
    if seen.contains c.kind then
      .error (.templateErr ("Duplicate \"" ++ c.kind.keyName ++ "\" trigger is not allowed"))
    else if c.prefetch then validateDeferTriggersAux eager (pre ++ [c.kind]) rest
    else validateDeferTriggersAux (eager ++ [c.kind]) pre rest

/-- Validation of the full trigger clause list of one defer block, starting
from empty eager and prefetch sets. -/
def validateDeferTriggers (clauses : List DeferTriggerClause) :
    Except Err (List DeferTriggerKind × List DeferTriggerKind) :=
  validateDeferTriggersAux [] [] clauses

/-- The kinds of the eager (non-prefetch) trigger clauses, in order. -/
def eagerKinds (clauses : List DeferTriggerClause) : List DeferTriggerKind :=
  (clauses.filter fun c => !c.prefetch).map DeferTriggerClause.kind

/-- The kinds of the prefetch trigger clauses, in order. -/
def prefetchKinds (clauses : List DeferTriggerClause) : List DeferTriggerKind :=
  (clauses.filter fun c => c.prefetch).map DeferTriggerClause.kind

/-- State of one callback scheduled through getCallbackScheduler: the
executeCallback flag shared by the two registered handlers, and how many
times the callback has run. -/
structure SchedulerState where
  executeCallback : Bool
  callbackRuns : Nat
deriving DecidableEq, Repr

/-- An event delivered to the scheduled callback: the setTimeout task
firing or the requestAnimationFrame callback firing. -/
inductive SchedulerEvent where
  | timeoutFires
  | animationFrameFires
deriving DecidableEq, Repr

/-- The handler body getCallbackScheduler registers with both setTimeout
and requestAnimationFrame: return immediately when the flag is already
cleared, otherwise clear the flag and run the callback. -/
def schedulerHandler (s : SchedulerState) : SchedulerState :=
  if !s.executeCallback then s
  else { executeCallback := false, callbackRuns := s.callbackRuns + 1 }

/-- State right after the scheduling function is invoked for a callback:
the flag is set and the callback has not run. -/
def scheduleInitial : SchedulerState := { executeCallback := true, callbackRuns := 0 }

/-- Run a sequence of firing events against the scheduled callback; both
event kinds execute the same handler body over the shared flag. -/
def runSchedulerEvents : List SchedulerEvent → SchedulerState → SchedulerState
  | [], s => s
  | _ :: rest, s => runSchedulerEvents rest (schedulerHandler s)

/-- The sanitized tag used in a derived listener handler name: the
operation's tag with its first hyphen replaced by an underscore, or the
literal host when the operation has no tag. -/
def listenerSafeTag (tag : Option String) : String :=
  match tag with
  | some t => String.mk (replaceFirstChar t.data '-' '_')
  | none => "host"

/-- Whether a switch secondary block is a default block. -/
def SwitchSecondary.isDefault : SwitchSecondary → Bool
  | .defaultBlock _ => true
  | _ => false

/-- The case expression a well-formed switch secondary block contributes:
the single parameter of a case block, or none for a default block. -/
def SwitchSecondary.caseExprOf : SwitchSecondary → Option String
  | .caseBlock ps => some (ps.headD "")
  | .defaultBlock _ => none
  | .unknownBlock _ => none

/-- A context variable with no name assigned yet. -/
def freshCtxVar : SemanticVariable := { kind := .context, name := none, identifier := "ctx" }

/-- Concrete job for the idempotence claim: all unit, listener and variable
names are populated, and the single Property operation is an animation
trigger whose name already carries the at-sign a first naming pass
prepends. -/
def animJob : CompilationJob :=
  { root := .mk (some "MyCmp_Template") false [.property "@fade" true []],
    componentName := "MyCmp",
    fnSuffix := "Template",
    compatibility := .normal }

/-- The result of running the naming phase once more on animJob: the
animation property name receives a second at-sign. -/
def animJobAfter : CompilationJob :=
  { root := .mk (some "MyCmp_Template") false [.property "@@fade" true []],
    componentName := "MyCmp",
    fnSuffix := "Template",
    compatibility := .normal }

/-- Concrete fully renamed job (with a named listener, a named and resolved
context variable, a normalized style prop, a class prop and a named child
view) used to witness the amended idempotence claim. -/
def warmJob : CompilationJob :=
  { root := (.mk (some "MyCmp_Template") false
      [.listener (some "MyCmp_Template_button_click_0_listener") (some 0) (some "button")
         "click" false "start" [],
       .varDecl 7 { kind := .context, name := some "ctx_r0", identifier := "ctx" }
         [{ xref := 7, name := some "ctx_r0" }],
       .styleProp "font-size" [],
       .classProp "important-box" [],
       .template (.mk (some "MyCmp_div_1_Template") false []) (some 1) "div" .html []]),
    componentName := "MyCmp",
    fnSuffix := "Template",
    compatibility := .normal }

/-- Concrete job with all variables unnamed: a context variable in the root
view and another in a nested child view, exercising the shared counter. -/
def freshJob : CompilationJob :=
  { root := (.mk none false
      [.varDecl 10 freshCtxVar [],
       .template (.mk none false [.varDecl 11 freshCtxVar []]) (some 2) "div" .html []]),
    componentName := "MyCmp",
    fnSuffix := "Template",
    compatibility := .normal }

/-- The expected result of the naming phase on freshJob: the two context
variables receive consecutive indices from the shared counter. -/
def freshJobAfter : CompilationJob :=
  { root := (.mk (some "MyCmp_Template") false
      [.varDecl 10 { kind := .context, name := some "ctx_r0", identifier := "ctx" } [],
       .template (.mk (some "MyCmp_div_2_Template") false
         [.varDecl 11 { kind := .context, name := some "ctx_r1", identifier := "ctx" } []])
         (some 2) "div" .html []]),
    componentName := "MyCmp",
    fnSuffix := "Template",
    compatibility := .normal }

/-- Concrete operation list for the read-resolution claim: a context
variable declaration followed by an operation reading it, plus an operation
with an unresolvable read used for the failure case. -/
def readOpsGood : List Op :=
  [.varDecl 5 freshCtxVar [], .other [{ xref := 5, name := none }]]

/-- Operation list whose read refers to an xref never declared in the
unit. -/
def readOpsBad : List Op :=
  [.varDecl 5 freshCtxVar [], .other [{ xref := 6, name := none }]]

/-- The name of a Property operation, used to exhibit the renaming of an
animation property by a repeated naming pass. -/
def Op.propertyName? : Op → Option String
  | .property n _ _ => some n
  | _ => none

/-- The trailing decimal index of an assigned name option. -/
def optNameIndex : Option String → Option Nat
  | some s => varIndexOf s
  | none => none

/-- The operation list the first pass produces from readOpsGood: the
variable is named ctx_r0 and recorded in the unit name table. -/
def c3ops1 : List Op :=
  [.varDecl 5 { kind := .context, name := some "ctx_r0", identifier := "ctx" } [],
   .other [{ xref := 5, name := none }]]

theorem digitChar_isDigit (d : Nat) (h : d < 10) : (digitChar d).isDigit = true := by
  interval_cases d <;> decide

theorem digitVal_digitChar (d : Nat) (h : d < 10) : digitVal (digitChar d) = d := by
  interval_cases d <;> decide

theorem digitsToNat_append (l : List Char) (c : Char) :
    digitsToNat (l ++ [c]) = 10 * digitsToNat l + digitVal c := by
  simp [digitsToNat, List.foldl_append]
  ring

theorem natDigitsCore_spec :
    ∀ (fuel n : Nat) (acc : List Char), n < fuel →
      ∃ ds, natDigitsCore fuel n acc = ds ++ acc ∧ ds ≠ [] ∧
        (∀ c ∈ ds, c.isDigit = true) ∧ digitsToNat ds = n := by
  intro fuel
  induction fuel with
  | zero => intro n acc h; omega
  | succ m ih =>
    intro n acc h
    by_cases hn : n < 10
    · refine ⟨[digitChar n], ?_, by simp, ?_, ?_⟩
      · simp [natDigitsCore, hn]
      · intro c hc
        simp at hc
        subst hc
        exact digitChar_isDigit n hn
      · simpa [digitsToNat] using digitVal_digitChar n hn
    · have hlt : n / 10 < m := by
        have h1 : n / 10 < n := Nat.div_lt_self (by omega) (by omega)
        omega
      obtain ⟨ds, hds, hne, hdig, hval⟩ := ih (n / 10) (digitChar (n % 10) :: acc) hlt
      refine ⟨ds ++ [digitChar (n % 10)], ?_, by simp, ?_, ?_⟩
      · simp [natDigitsCore, hn, hds]
      · intro c hc
        rcases List.mem_append.mp hc with h1 | h1
        · exact hdig c h1
        · simp at h1
          subst h1
          exact digitChar_isDigit _ (Nat.mod_lt _ (by omega))
      · rw [digitsToNat_append, hval, digitVal_digitChar _ (Nat.mod_lt _ (by omega))]
        omega

theorem data_mk (l : List Char) : (String.mk l).data = l := rfl

theorem natToDecimal_spec (n : Nat) :
    (natToDecimal n).data ≠ [] ∧ (∀ c ∈ (natToDecimal n).data, c.isDigit = true) ∧
      digitsToNat (natToDecimal n).data = n := by
  obtain ⟨ds, hds, hne, hdig, hval⟩ := natDigitsCore_spec (n + 1) n [] (by omega)
  refine ⟨?_, ?_, ?_⟩
  · simp [natToDecimal, data_mk, hds, hne]
  · intro c hc
    apply hdig
    simpa [natToDecimal, data_mk, hds] using hc
  · simp [natToDecimal, data_mk, hds, hval]
theorem takeWhile_append_of_all {α : Type} (p : α → Bool) (l1 l2 : List α)
    (h : ∀ a ∈ l1, p a = true) :
    (l1 ++ l2).takeWhile p = l1 ++ l2.takeWhile p := by
  induction l1 with
  | nil => simp
  | cons a l ih =>
    have ha : p a = true := h a (by simp)
    simp only [List.cons_append, List.takeWhile_cons, ha, if_true]
    rw [ih fun b hb => h b (by simp [hb])]

theorem dropWhile_append_of_all {α : Type} (p : α → Bool) (l1 l2 : List α)
    (h : ∀ a ∈ l1, p a = true) :
    (l1 ++ l2).dropWhile p = l2.dropWhile p := by
  induction l1 with
  | nil => simp
  | cons a l ih =>
    have ha : p a = true := h a (by simp)
    simp only [List.cons_append, List.dropWhile_cons, ha, if_true]
    exact ih fun b hb => h b (by simp [hb])

theorem varIndexOf_append (pre : List Char) (c : Char) (k : Nat)
    (hc : c.isDigit = false) :
    varIndexOf (String.mk ((pre ++ [c]) ++ (natToDecimal k).data)) = some k := by
  obtain ⟨hne, hdig, hval⟩ := natToDecimal_spec k
  have htake : (((pre ++ [c]) ++ (natToDecimal k).data).reverse).takeWhile Char.isDigit =
      (natToDecimal k).data.reverse := by
    rw [show ((pre ++ [c]) ++ (natToDecimal k).data).reverse =
        (natToDecimal k).data.reverse ++ (c :: pre.reverse) by simp]
    rw [takeWhile_append_of_all _ _ _ (fun a ha => hdig a (List.mem_reverse.mp ha))]
    simp [List.takeWhile_cons, hc]
  simp only [varIndexOf, data_mk, htake, List.reverse_reverse]
  simp [List.isEmpty_iff, hne, hval]

theorem varIndexOf_mkVarName (kind : SemanticVariableKind) (ident : String) (k : Nat) :
    varIndexOf (mkVarName kind ident k) = some k := by
  cases kind with
  | context =>
    rw [mkVarName, show ("ctx_r" ++ natToDecimal k : String) =
        String.mk ((['c', 't', 'x', '_'] ++ ['r']) ++ (natToDecimal k).data) from
        String.ext (by rw [String.data_append]; rfl)]
    exact varIndexOf_append _ 'r' k (by decide)
  | identifier =>
    rw [mkVarName, show (ident ++ "_" ++ natToDecimal k : String) =
        String.mk ((ident.data ++ ['_']) ++ (natToDecimal k).data) from
        String.ext (by simp [String.data_append])]
    exact varIndexOf_append _ '_' k (by decide)
  | other =>
    rw [mkVarName, show ("_r" ++ natToDecimal k : String) =
        String.mk ((['_'] ++ ['r']) ++ (natToDecimal k).data) from
        String.ext (by rw [String.data_append]; rfl)]
    exact varIndexOf_append _ 'r' k (by decide)

theorem runSchedulerEvents_cleared (evs : List SchedulerEvent) (runs : Nat) :
    runSchedulerEvents evs { executeCallback := false, callbackRuns := runs } =
      { executeCallback := false, callbackRuns := runs } := by
  induction evs with
  | nil => rfl
  | cons e rest ih => simpa [runSchedulerEvents, schedulerHandler] using ih

/-- C10: for every call to the scheduling function returned by
getCallbackScheduler, the supplied callback executes at most once: over any
sequence of firings of the two registered tasks (setTimeout and
requestAnimationFrame), the first firing runs the callback and every later
firing returns without running it, so the run count is the minimum of the
number of firings and one. -/
theorem c10_callback_at_most_once (evs : List SchedulerEvent) :
    (runSchedulerEvents evs scheduleInitial).callbackRuns = min evs.length 1 ∧
    (runSchedulerEvents evs scheduleInitial).callbackRuns ≤ 1 := by
  have hmain : (runSchedulerEvents evs scheduleInitial).callbackRuns = min evs.length 1 := by
    cases evs with
    | nil => simp [runSchedulerEvents, scheduleInitial]
    | cons e rest =>
      have h1 : schedulerHandler scheduleInitial =
          { executeCallback := false, callbackRuns := 1 } := by
        simp [schedulerHandler, scheduleInitial]
      simp [runSchedulerEvents, h1, runSchedulerEvents_cleared]
  exact ⟨hmain, by omega⟩

/-- C5: the naming phase rewrites every StyleProp operation name to
hyphen-case unless it starts with two hyphens (a CSS custom property, left
unchanged), and when compatibility mode is enabled the !important suffix is
additionally stripped from both StyleProp and ClassProp names; outside
compatibility mode ClassProp names are left unchanged.  The counter and
the name table are untouched. -/
theorem c5_style_class_prop_naming (compat : Bool) (sfx fn base : String) (hb : Bool)
    (name : String) (reads : List VarRead) (st : Nat) (vn : List (Nat × String)) :
    (processOp compat sfx fn base hb (.styleProp name reads) st vn =
      .ok (.styleProp
        (let n1 := if startsWithChars "--".data name.data then name else hyphenate name
         if compat then stripImportant n1 else n1) reads, st, vn)) ∧
    (processOp compat sfx fn base hb (.classProp name reads) st vn =
      .ok (.classProp (if compat then stripImportant name else name) reads, st, vn)) ∧
    stripImportant "color!important" = "color" ∧
    hyphenate "fontSize" = "font-size" ∧
    normalizeStylePropName "--myVar" = "--myVar" := by
  refine ⟨?_, ?_, by decide, by decide, by decide⟩
  · simp [processOp, normalizeStylePropName]
  · simp [processOp]

/-- C4: for a Listener operation with no handler name, outside the legacy
host-binding compatibility case, the naming phase throws the fatal
slot-assignment error when the slot is unassigned; otherwise it derives the
handler name from the unit function name, the sanitized tag (or the literal
host), the binding name and the slot index, and for animation listeners it
additionally folds the animation phase into the handler name and rewrites
the binding name to the at-sign, event-name, dot, phase form. -/
theorem c4_listener_handler_naming (compat : Bool) (sfx fn base : String) (hb : Bool)
    (tag : Option String) (name phase : String) (isAnimL : Bool) (reads : List VarRead)
    (st : Nat) (vn : List (Nat × String)) (hnc : (compat && hb) = false) :
    (processOp compat sfx fn base hb (.listener none none tag name isAnimL phase reads) st vn =
      .error (.internal "Expected a slot to be assigned")) ∧
    (∀ (m : String), Err.internal "Expected a slot to be assigned" ≠ Err.templateErr m) ∧
    (∀ s : Nat,
      processOp compat sfx fn base hb (.listener none (some s) tag name false phase reads) st vn =
        .ok (.listener
          (some (sanitizeIdentifier (fn ++ "_" ++ listenerSafeTag tag ++ "_" ++ name ++
            "_" ++ natToDecimal s ++ "_listener")))
          (some s) tag name false phase reads, st, vn) ∧
      processOp compat sfx fn base hb (.listener none (some s) tag name true phase reads) st vn =
        .ok (.listener
          (some (sanitizeIdentifier (fn ++ "_" ++ listenerSafeTag tag ++ "_animation_" ++
            name ++ "_" ++ phase ++ "_" ++ natToDecimal s ++ "_listener")))
          (some s) tag ("@" ++ name ++ "." ++ phase) true phase reads, st, vn)) := by
  refine ⟨?_, ?_, ?_⟩
  · simp [processOp, hnc]
  · intro m h
    cases h
  · intro s
    constructor <;> · cases tag <;> simp [processOp, hnc, listenerSafeTag]

/-- C8: every numeric time value of a defer trigger is normalized to
integer milliseconds: a trailing s multiplies the number by one thousand, a
trailing ms or no unit at all is taken as milliseconds, and an unparsable
numeral raises the could-not-parse-time-value error. -/
theorem c8_defer_time_normalization (n : Nat) :
    createTimerTrigger (natToDecimal n ++ "s") = .ok (.timer (n * 1000)) ∧
    createTimerTrigger (natToDecimal n ++ "ms") = .ok (.timer n) ∧
    createTimerTrigger (natToDecimal n) = .ok (.timer n) ∧
    createTimerTrigger "10s" = .ok (.timer 10000) ∧
    createTimerTrigger "100" = .ok (.timer 100) ∧
    createTimerTrigger "123abc" =
      .error (.templateErr "Could not parse time value of trigger \"timer\"") := by
  obtain ⟨hne, hdig, hval⟩ := natToDecimal_spec n
  have e3 : (natToDecimal n).data.isEmpty = false := by
    simp [List.isEmpty_iff, hne]
  refine ⟨?_, ?_, ?_, by rfl, by rfl, by rfl⟩
  · have e1 : (natToDecimal n ++ "s").data.takeWhile Char.isDigit = (natToDecimal n).data := by
      rw [String.data_append, takeWhile_append_of_all _ _ _ hdig,
        show ("s" : String).data = ['s'] from rfl]
      simp [List.takeWhile_cons, show ('s').isDigit = false from rfl]
    have e2 : (natToDecimal n ++ "s").data.dropWhile Char.isDigit = ['s'] := by
      rw [String.data_append, dropWhile_append_of_all _ _ _ hdig]
      rfl
    have hp : parseDeferredTime (natToDecimal n ++ "s") = some (n * 1000) := by
      simp only [parseDeferredTime]
      rw [e1, e2, e3]
      simp [hval]
    simp [createTimerTrigger, hp]
  · have e1 : (natToDecimal n ++ "ms").data.takeWhile Char.isDigit = (natToDecimal n).data := by
      rw [String.data_append, takeWhile_append_of_all _ _ _ hdig,
        show ("ms" : String).data = ['m', 's'] from rfl]
      simp [List.takeWhile_cons, show ('m').isDigit = false from rfl]
    have e2 : (natToDecimal n ++ "ms").data.dropWhile Char.isDigit = ['m', 's'] := by
      rw [String.data_append, dropWhile_append_of_all _ _ _ hdig]
      rfl
    have hp : parseDeferredTime (natToDecimal n ++ "ms") = some n := by
      simp only [parseDeferredTime]
      rw [e1, e2, e3]
      simp [hval]
    simp [createTimerTrigger, hp]
  · have e1 : (natToDecimal n).data.takeWhile Char.isDigit = (natToDecimal n).data := by
      have h := takeWhile_append_of_all Char.isDigit (natToDecimal n).data [] hdig
      simpa using h
    have e2 : (natToDecimal n).data.dropWhile Char.isDigit = ([] : List Char) := by
      have h := dropWhile_append_of_all Char.isDigit (natToDecimal n).data [] hdig
      simpa using h
    have hp : parseDeferredTime (natToDecimal n) = some n := by
      simp only [parseDeferredTime]
      rw [e1, e2, e3]
      simp [hval]
    simp [createTimerTrigger, hp]

theorem forLoop_foldl_track_none :
    ∀ (l : List String) (vars : List (String × String)) (errs : List String),
      (∀ p ∈ l, matchTrack p = none) →
      (l.foldl forLoopParamStep (none, vars, errs)).1 = none := by
  intro l
  induction l with
  | nil => intro vars errs _; rfl
  | cons p rest ih =>
    intro vars errs h
    have hp : matchTrack p = none := h p (by simp)
    have hrest : ∀ q ∈ rest, matchTrack q = none := fun q hq => h q (by simp [hq])
    simp only [List.foldl_cons]
    cases hml : matchLet p with
    | some text =>
      simp only [forLoopParamStep, hml]
      exact ih _ _ hrest
    | none =>
      simp only [forLoopParamStep, hml, hp]
      exact ih _ _ hrest

/-- C6: a for block whose parameter list contains no track parameter always
fails with the error saying the for loop must have a track expression,
independently of which other parameters (let bindings or otherwise) are
supplied. -/
theorem c6_for_track_required (mainExpr : String) (secondary : List String)
    (item expr : String)
    (hmain : matchForOf mainExpr = some (item, expr))
    (hnotrack : ∀ p ∈ secondary, matchTrack p = none) :
    "For loop must have a \"track\" expression" ∈
      (parseForLoopParameters (mainExpr :: secondary)).1 ∧
    (parseForLoopParameters (mainExpr :: secondary)).2 = none := by
  have htr := forLoop_foldl_track_none secondary [] [] hnotrack
  simp only [parseForLoopParameters, hmain]
  rw [htr]
  simp

theorem switch_foldl_errs_mem (m : String) :
    ∀ (body : List SwitchSecondary) (cs : List (Option String)) (flag : Bool)
      (errs : List String), m ∈ errs →
      m ∈ (body.foldl switchBodyStep (cs, flag, errs)).2.2 := by
  intro body
  induction body with
  | nil => intro cs flag errs h; exact h
  | cons b rest ih =>
    intro cs flag errs h
    simp only [List.foldl_cons]
    cases b with
    | caseBlock ps =>
      by_cases hl : ps.length = 1
      · simp only [switchBodyStep, hl]
        exact ih _ _ _ (by simp [h])
      · simp only [switchBodyStep]
        have : (ps.length != 1) = true := by simpa using hl
        rw [this]
        simp only [if_true]
        exact ih _ _ _ (by simp [h])
    | defaultBlock ps =>
      cases flag with
      | true =>
        simp only [switchBodyStep, if_true]
        exact ih _ _ _ (by simp [h])
      | false =>
        by_cases hl : ps.length = 0
        · simp only [switchBodyStep, hl]
          exact ih _ _ _ (by simp [h])
        · simp only [switchBodyStep]
          have : (ps.length != 0) = true := by simpa using hl
          simp only [Bool.false_eq_true, if_false, this, if_true]
          exact ih _ _ _ (by simp [h])
    | unknownBlock nm =>
      simp only [switchBodyStep]
      exact ih _ _ _ (by simp [h])

theorem switch_foldl_dup_of_flag :
    ∀ (body : List SwitchSecondary) (cs : List (Option String)) (errs : List String),
      (∃ b ∈ body, b.isDefault = true) →
      "Switch block can only have one \"default\" block" ∈
        (body.foldl switchBodyStep (cs, true, errs)).2.2 := by
  intro body
  induction body with
  | nil => rintro cs errs ⟨b, hb, _⟩; cases hb
  | cons b rest ih =>
    rintro cs errs ⟨b0, hb0, hdef⟩
    simp only [List.foldl_cons]
    cases b with
    | defaultBlock ps =>
      simp only [switchBodyStep, if_true]
      exact switch_foldl_errs_mem _ _ _ _ _ (by simp)
    | caseBlock ps =>
      have hin : ∃ x ∈ rest, SwitchSecondary.isDefault x = true := by
        rcases List.mem_cons.mp hb0 with h | h
        · subst h; cases hdef
        · exact ⟨b0, h, hdef⟩
      by_cases hl : ps.length = 1
      · simp only [switchBodyStep, hl]
        simpa using ih _ _ hin
      · simp only [switchBodyStep]
        have : (ps.length != 1) = true := by simpa using hl
        rw [this]
        simp only [if_true]
        exact ih _ _ hin
    | unknownBlock nm =>
      have hin : ∃ x ∈ rest, SwitchSecondary.isDefault x = true := by
        rcases List.mem_cons.mp hb0 with h | h
        · subst h; cases hdef
        · exact ⟨b0, h, hdef⟩
      simp only [switchBodyStep]
      exact ih _ _ hin

theorem switch_foldl_two_defaults :
    ∀ (body : List SwitchSecondary) (cs : List (Option String)) (errs : List String),
      2 ≤ body.countP (fun b => b.isDefault) →
      "Switch block can only have one \"default\" block" ∈
        (body.foldl switchBodyStep (cs, false, errs)).2.2 := by
  intro body
  induction body with
  | nil =>
    intro cs errs h
    rw [List.countP_nil] at h
    omega
  | cons b rest ih =>
    intro cs errs h
    simp only [List.foldl_cons]
    cases b with
    | defaultBlock ps =>
      have hb : (SwitchSecondary.defaultBlock ps).isDefault = true := rfl
      rw [List.countP_cons, hb] at h
      simp only [eq_self_iff_true, if_true] at h
      have hpos : 0 < rest.countP (fun b => b.isDefault) := by omega
      have hin : ∃ x ∈ rest, SwitchSecondary.isDefault x = true := List.countP_pos_iff.mp hpos
      by_cases hl : ps.length = 0
      · simp only [switchBodyStep, Bool.false_eq_true, if_false, hl]
        simpa using switch_foldl_dup_of_flag rest _ _ hin
      · simp only [switchBodyStep, Bool.false_eq_true, if_false]
        have hb2 : (ps.length != 0) = true := by simpa using hl
        rw [hb2]
        simp only [if_true]
        exact switch_foldl_dup_of_flag rest _ _ hin
    | caseBlock ps =>
      have hb : (SwitchSecondary.caseBlock ps).isDefault = false := rfl
      rw [List.countP_cons, hb] at h
      simp only [Bool.false_eq_true, if_false, Nat.add_zero] at h
      by_cases hl : ps.length = 1
      · simp only [switchBodyStep, hl]
        simpa using ih _ _ h
      · simp only [switchBodyStep]
        have hb2 : (ps.length != 1) = true := by simpa using hl
        rw [hb2]
        simp only [if_true]
        exact ih _ _ h
    | unknownBlock nm =>
      have hb : (SwitchSecondary.unknownBlock nm).isDefault = false := rfl
      rw [List.countP_cons, hb] at h
      simp only [Bool.false_eq_true, if_false, Nat.add_zero] at h
      simp only [switchBodyStep]
      exact ih _ _ h

theorem switch_foldl_good :
    ∀ (l : List SwitchSecondary) (cs : List (Option String)) (flag : Bool)
      (errs : List String), (∀ b ∈ l, ∃ p, b = .caseBlock [p]) →
      l.foldl switchBodyStep (cs, flag, errs) =
        (cs ++ l.map SwitchSecondary.caseExprOf, flag, errs) := by
  intro l
  induction l with
  | nil => intro cs flag errs _; simp
  | cons b rest ih =>
    intro cs flag errs h
    obtain ⟨p, hp⟩ := h b (by simp)
    subst hp
    simp only [List.foldl_cons, switchBodyStep, List.length_singleton]
    rw [ih _ _ _ (fun x hx => h x (by simp [hx]))]
    simp [SwitchSecondary.caseExprOf]

/-- C7: a switch body containing two default cases (cases with a null
expression) fails with the single-default error and produces no result,
while a body with exactly one default case among otherwise well-formed
cases parses successfully regardless of the default's position. -/
theorem c7_switch_single_default (params : List String) (body : List SwitchSecondary)
    (e : String) (pre post : List SwitchSecondary)
    (htwo : 2 ≤ body.countP (fun b => b.isDefault))
    (hpre : ∀ b ∈ pre, ∃ p, b = SwitchSecondary.caseBlock [p])
    (hpost : ∀ b ∈ post, ∃ p, b = SwitchSecondary.caseBlock [p]) :
    ("Switch block can only have one \"default\" block" ∈ (parseSwitchBlock params body).1 ∧
      (parseSwitchBlock params body).2 = none) ∧
    parseSwitchBlock [e] (pre ++ SwitchSecondary.defaultBlock [] :: post) =
      ([], some ⟨e, pre.map SwitchSecondary.caseExprOf ++
          none :: post.map SwitchSecondary.caseExprOf⟩) := by
  constructor
  · have hdup := switch_foldl_two_defaults body []
      (if params.length != 1 then ["Switch block must have exactly one parameter"] else []) htwo
    simp only [parseSwitchBlock]
    have hne : ((body.foldl switchBodyStep ([], false,
        if params.length != 1 then ["Switch block must have exactly one parameter"] else [])).2.2).isEmpty = false := by
      rcases hl : (body.foldl switchBodyStep ([], false,
        if params.length != 1 then ["Switch block must have exactly one parameter"] else [])).2.2 with _ | _
      · rw [hl] at hdup; cases hdup
      · rfl
    rw [hne]
    simp only [Bool.false_eq_true, if_false]
    exact ⟨hdup, trivial⟩
  · have h1 := switch_foldl_good pre [] false ([] : List String) hpre
    have hfold : (pre ++ SwitchSecondary.defaultBlock [] :: post).foldl switchBodyStep
        ([], false, ([] : List String)) =
        (pre.map SwitchSecondary.caseExprOf ++ none :: post.map SwitchSecondary.caseExprOf,
          true, ([] : List String)) := by
      rw [List.foldl_append, h1]
      simp only [List.foldl_cons, switchBodyStep, List.length_nil, Bool.false_eq_true, if_false]
      rw [switch_foldl_good post _ _ _ hpost]
      simp
    simp only [parseSwitchBlock, List.length_singleton]
    rw [show (if (((1 : Nat) != 1) = true) then ["Switch block must have exactly one parameter"]
        else []) = ([] : List String) from rfl]
    rw [hfold]
    simp

theorem validateAux_sound :
    ∀ (clauses : List DeferTriggerClause) (eager pre e p : List DeferTriggerKind),
      validateDeferTriggersAux eager pre clauses = .ok (e, p) →
      e = eager ++ eagerKinds clauses ∧ p = pre ++ prefetchKinds clauses := by
  intro clauses
  induction clauses with
  | nil =>
    intro eager pre e p h
    simp only [validateDeferTriggersAux, Except.ok.injEq, Prod.mk.injEq] at h
    simp [eagerKinds, prefetchKinds, h.1.symm, h.2.symm]
  | cons c rest ih =>
    intro eager pre e p h
    simp only [validateDeferTriggersAux] at h
    by_cases hc : ((if c.prefetch then pre else eager).contains c.kind) = true
    · rw [hc] at h
      simp at h
    · rw [Bool.not_eq_true] at hc
      rw [hc] at h
      simp only [Bool.false_eq_true, if_false] at h
      cases hp : c.prefetch with
      | true =>
        rw [hp] at h
        simp only [if_true] at h
        obtain ⟨h1, h2⟩ := ih _ _ _ _ h
        constructor
        · rw [h1]
          simp [eagerKinds, List.filter_cons, hp]
        · rw [h2]
          simp [prefetchKinds, List.filter_cons, hp]
      | false =>
        rw [hp] at h
        simp only [Bool.false_eq_true, if_false] at h
        obtain ⟨h1, h2⟩ := ih _ _ _ _ h
        constructor
        · rw [h1]
          simp [eagerKinds, List.filter_cons, hp]
        · rw [h2]
          simp [prefetchKinds, List.filter_cons, hp]

theorem validateAux_nodup :
    ∀ (clauses : List DeferTriggerClause) (eager pre e p : List DeferTriggerKind),
      validateDeferTriggersAux eager pre clauses = .ok (e, p) →
      eager.Nodup → pre.Nodup → e.Nodup ∧ p.Nodup := by
  intro clauses
  induction clauses with
  | nil =>
    intro eager pre e p h he hp
    simp only [validateDeferTriggersAux, Except.ok.injEq, Prod.mk.injEq] at h
    rw [← h.1, ← h.2]
    exact ⟨he, hp⟩
  | cons c rest ih =>
    intro eager pre e p h he hp
    simp only [validateDeferTriggersAux] at h
    by_cases hc : ((if c.prefetch then pre else eager).contains c.kind) = true
    · rw [hc] at h
      simp at h
    · rw [Bool.not_eq_true] at hc
      rw [hc] at h
      simp only [Bool.false_eq_true, if_false] at h
      cases hpf : c.prefetch with
      | true =>
        rw [hpf] at h
        simp only [if_true] at h
        rw [hpf] at hc
        simp only [if_true] at hc
        have hnotin : c.kind ∉ pre := by simpa using hc
        exact ih _ _ _ _ h he (by simp [List.nodup_append, hp, hnotin])
      | false =>
        rw [hpf] at h
        simp only [Bool.false_eq_true, if_false] at h
        rw [hpf] at hc
        simp only [Bool.false_eq_true, if_false] at hc
        have hnotin : c.kind ∉ eager := by simpa using hc
        exact ih _ _ _ _ h (by simp [List.nodup_append, he, hnotin]) hp

theorem validateAux_err_shape :
    ∀ (clauses : List DeferTriggerClause) (eager pre : List DeferTriggerKind) (err : Err),
      validateDeferTriggersAux eager pre clauses = .error err →
      ∃ k : DeferTriggerKind,
        err = .templateErr ("Duplicate \"" ++ k.keyName ++ "\" trigger is not allowed") := by
  intro clauses
  induction clauses with
  | nil =>
    intro eager pre err h
    simp [validateDeferTriggersAux] at h
  | cons c rest ih =>
    intro eager pre err h
    simp only [validateDeferTriggersAux] at h
    by_cases hc : ((if c.prefetch then pre else eager).contains c.kind) = true
    · rw [hc] at h
      simp only [if_true, Except.error.injEq] at h
      exact ⟨c.kind, h.symm⟩
    · rw [Bool.not_eq_true] at hc
      rw [hc] at h
      simp only [Bool.false_eq_true, if_false] at h
      cases hpf : c.prefetch with
      | true =>
        rw [hpf] at h
        simp only [if_true] at h
        exact ih _ _ _ h
      | false =>
        rw [hpf] at h
        simp only [Bool.false_eq_true, if_false] at h
        exact ih _ _ _ h

/-- C9: a successfully validated defer block has a duplicate-free set of
eager trigger kinds and, independently, a duplicate-free set of prefetch
trigger kinds (in particular at most one when trigger in each); a duplicate
kind within one set is rejected with the duplicate-trigger error, while the
same kind may appear once in the eager set and once in the prefetch
set. -/
theorem c9_defer_trigger_uniqueness (clauses : List DeferTriggerClause) :
    (∀ e p, validateDeferTriggers clauses = .ok (e, p) →
      e = eagerKinds clauses ∧ p = prefetchKinds clauses ∧ e.Nodup ∧ p.Nodup ∧
      e.count .onWhen ≤ 1 ∧ p.count .onWhen ≤ 1) ∧
    ((¬ (eagerKinds clauses).Nodup ∨ ¬ (prefetchKinds clauses).Nodup) →
      ∃ k : DeferTriggerKind, validateDeferTriggers clauses =
        .error (.templateErr ("Duplicate \"" ++ k.keyName ++ "\" trigger is not allowed"))) ∧
    validateDeferTriggers
        [{ prefetch := false, kind := .immediate }, { prefetch := true, kind := .immediate }] =
      .ok ([.immediate], [.immediate]) := by
  refine ⟨?_, ?_, by rfl⟩
  · intro e p h
    obtain ⟨h1, h2⟩ := validateAux_sound clauses [] [] e p h
    obtain ⟨h3, h4⟩ := validateAux_nodup clauses [] [] e p h List.nodup_nil List.nodup_nil
    simp only [List.nil_append] at h1 h2
    exact ⟨h1, h2, h3, h4, List.nodup_iff_count_le_one.mp h3 _,
      List.nodup_iff_count_le_one.mp h4 _⟩
  · intro hdup
    cases h : validateDeferTriggers clauses with
    | ok ep =>
      obtain ⟨e, p⟩ := ep
      obtain ⟨h1, h2⟩ := validateAux_sound clauses [] [] e p h
      obtain ⟨h3, h4⟩ := validateAux_nodup clauses [] [] e p h List.nodup_nil List.nodup_nil
      simp only [List.nil_append] at h1 h2
      rcases hdup with hd | hd
      · exact absurd (h1 ▸ h3) hd
      · exact absurd (h2 ▸ h4) hd
    | error err =>
      obtain ⟨k, hk⟩ := validateAux_err_shape clauses [] [] err h
      exact ⟨k, by rw [hk]⟩

theorem resolveRead_ok_of (vn : List (Nat × String)) (r : VarRead)
    (h : r.name = none → (lookupVarName vn r.xref).isSome = true) :
    resolveRead vn r = .ok (readSpec vn r) := by
  cases hn : r.name with
  | some n => simp [resolveRead, readSpec, hn]
  | none =>
    have hs := h hn
    cases hl : lookupVarName vn r.xref with
    | none => rw [hl] at hs; cases hs
    | some m => simp [resolveRead, readSpec, hn, hl]

theorem resolveReads_ok_of (vn : List (Nat × String)) :
    ∀ (reads : List VarRead),
      (∀ r ∈ reads, r.name = none → (lookupVarName vn r.xref).isSome = true) →
      resolveReads vn reads = .ok (reads.map (readSpec vn)) := by
  intro reads
  induction reads with
  | nil => intro _; rfl
  | cons r rest ih =>
    intro h
    rw [List.map_cons]
    simp only [resolveReads, resolveRead_ok_of vn r (h r (by simp)),
      ih (fun q hq => h q (by simp [hq]))]

theorem resolveRead_err_shape (vn : List (Nat × String)) (r : VarRead) (e : Err)
    (h : resolveRead vn r = .error e) : ∃ msg, e = .internal msg := by
  cases hn : r.name with
  | some n => rw [resolveRead, hn] at h; cases h
  | none =>
    rw [resolveRead, hn] at h
    cases hl : lookupVarName vn r.xref with
    | none =>
      rw [hl] at h
      simp only [Except.error.injEq] at h
      exact ⟨_, h.symm⟩
    | some m => rw [hl] at h; cases h

theorem resolveReads_err_shape (vn : List (Nat × String)) :
    ∀ (reads : List VarRead) (e : Err),
      resolveReads vn reads = .error e → ∃ msg, e = .internal msg := by
  intro reads
  induction reads with
  | nil => intro e h; cases h
  | cons r rest ih =>
    intro e h
    rw [resolveReads] at h
    cases h1 : resolveRead vn r with
    | error e1 =>
      rw [h1] at h
      cases h
      exact resolveRead_err_shape vn r _ h1
    | ok r' =>
      rw [h1] at h
      cases h2 : resolveReads vn rest with
      | error e2 =>
        rw [h2] at h
        cases h
        exact ih _ h2
      | ok rest' => rw [h2] at h; cases h

theorem resolveReads_ok_forces (vn : List (Nat × String)) :
    ∀ (reads : List VarRead) (out : List VarRead),
      resolveReads vn reads = .ok out →
      ∀ r ∈ reads, r.name = none → (lookupVarName vn r.xref).isSome = true := by
  intro reads
  induction reads with
  | nil => intro out _ r hr; cases hr
  | cons q rest ih =>
    intro out h r hr hn
    rw [resolveReads] at h
    cases h1 : resolveRead vn q with
    | error e1 => rw [h1] at h; cases h
    | ok q' =>
      rw [h1] at h
      cases h2 : resolveReads vn rest with
      | error e2 => rw [h2] at h; cases h
      | ok rest' =>
        rcases List.mem_cons.mp hr with hh | hh
        · subst hh
          rw [resolveRead, hn] at h1
          cases hl : lookupVarName vn r.xref with
          | none => rw [hl] at h1; cases h1
          | some m => rfl
        · exact ih _ h2 r hh hn

theorem resolveOps_ok_of (vn : List (Nat × String)) :
    ∀ (ops : List Op),
      (∀ op ∈ ops, ∀ r ∈ Op.reads op, r.name = none →
        (lookupVarName vn r.xref).isSome = true) →
      resolveOps vn ops = .ok (ops.map (resolveSpec vn)) := by
  intro ops
  induction ops with
  | nil => intro _; rfl
  | cons op rest ih =>
    intro h
    rw [List.map_cons]
    have h1 : resolveOp vn op = .ok (resolveSpec vn op) := by
      rw [resolveOp, resolveReads_ok_of vn (Op.reads op) (h op (by simp)), resolveSpec]
    simp only [resolveOps, h1, ih (fun q hq => h q (by simp [hq]))]

theorem resolveOps_err_shape (vn : List (Nat × String)) :
    ∀ (ops : List Op) (e : Err),
      resolveOps vn ops = .error e → ∃ msg, e = .internal msg := by
  intro ops
  induction ops with
  | nil => intro e h; cases h
  | cons op rest ih =>
    intro e h
    rw [resolveOps] at h
    cases h1 : resolveOp vn op with
    | error e1 =>
      rw [h1] at h
      cases h
      rw [resolveOp] at h1
      cases h2 : resolveReads vn (Op.reads op) with
      | error e2 =>
        rw [h2] at h1
        cases h1
        exact resolveReads_err_shape vn _ _ h2
      | ok reads' => rw [h2] at h1; cases h1
    | ok op' =>
      rw [h1] at h
      cases h2 : resolveOps vn rest with
      | error e2 =>
        rw [h2] at h
        cases h
        exact ih _ h2
      | ok rest' => rw [h2] at h; cases h

theorem resolveOps_ok_forces (vn : List (Nat × String)) :
    ∀ (ops : List Op) (out : List Op),
      resolveOps vn ops = .ok out →
      ∀ op ∈ ops, ∀ r ∈ Op.reads op, r.name = none →
        (lookupVarName vn r.xref).isSome = true := by
  intro ops
  induction ops with
  | nil => intro out _ op hop; cases hop
  | cons op0 rest ih =>
    intro out h op hop r hr hn
    rw [resolveOps] at h
    cases h1 : resolveOp vn op0 with
    | error e1 => rw [h1] at h; cases h
    | ok op' =>
      rw [h1] at h
      cases h2 : resolveOps vn rest with
      | error e2 => rw [h2] at h; cases h
      | ok rest' =>
        rcases List.mem_cons.mp hop with hh | hh
        · subst hh
          rw [resolveOp] at h1
          cases h3 : resolveReads vn (Op.reads op) with
          | error e3 => rw [h3] at h1; cases h1
          | ok reads' => exact resolveReads_ok_forces vn _ _ h3 r hr hn
        · exact ih _ h2 op hh r hr hn

/-- C3: within one compilation unit, once the first pass has named the
unit's variables (building its name table), the second pass assigns every
still-unnamed variable-read the name recorded for its xref in that table;
if some still-unnamed read's xref was never named in the unit, the phase
aborts with a fatal internal error, an error distinct by construction from
every user-facing template syntax error. -/
theorem c3_variable_read_resolution (compat : Bool) (sfx fn base : String) (hb : Bool)
    (ops : List Op) (st : Nat) (ops1 : List Op) (st1 : Nat) (vn : List (Nat × String))
    (hfirst : processOps compat sfx fn base hb ops st [] = .ok (ops1, st1, vn)) :
    ((∀ op1 ∈ ops1, ∀ r ∈ Op.reads op1, r.name = none →
        (lookupVarName vn r.xref).isSome = true) →
      addNamesToView compat sfx (.mk (some fn) hb ops) base st =
        .ok (.mk (some fn) hb (ops1.map (resolveSpec vn)), st1)) ∧
    ((∃ op1 ∈ ops1, ∃ r ∈ Op.reads op1, r.name = none ∧ lookupVarName vn r.xref = none) →
      ∃ msg, addNamesToView compat sfx (.mk (some fn) hb ops) base st =
          .error (.internal msg) ∧
        ∀ m, Err.internal msg ≠ Err.templateErr m) := by
  constructor
  · intro hres
    simp only [addNamesToView, hfirst, resolveOps_ok_of vn ops1 hres]
  · rintro ⟨op1, hop1, r, hr, hn, hl⟩
    cases h2 : resolveOps vn ops1 with
    | ok out =>
      have := resolveOps_ok_forces vn ops1 out h2 op1 hop1 r hr hn
      rw [hl] at this
      cases this
    | error e =>
      obtain ⟨msg, hmsg⟩ := resolveOps_err_shape vn ops1 e h2
      refine ⟨msg, ?_, fun m hne => by cases hne⟩
      rw [hmsg] at h2
      simp only [addNamesToView, hfirst, h2]

/-- C1 counterexample: a job in which every unit function name, listener
handler name and variable name is already populated (as after a first
naming pass), but whose animation-trigger Property operation gets a second
at-sign prepended by another run of the naming phase, so the second pass is
not a no-op on Property names. -/
theorem c1_naming_counterexample :
    namesPopulated animJob.root = true ∧
    phaseNaming animJob = .ok animJobAfter ∧
    animJob.root.opsOf.map Op.propertyName? = [some "@fade"] ∧
    animJobAfter.root.opsOf.map Op.propertyName? = [some "@@fade"] ∧
    ([some "@@fade"] : List (Option String)) ≠ [some "@fade"] := by
  refine ⟨?_, ?_, by rfl, by rfl, by decide⟩
  · simp [namesPopulated, collectUnits, collectUnitsOps, collectUnitsOp, animJob,
      CompilationUnit.fnNameOf, CompilationUnit.opsOf]
  · simp [phaseNaming, addNamesToView, processOps, processOp, resolveOps, resolveOp,
      resolveReads, Op.reads, Op.withReads, animJob, animJobAfter]

theorem withReads_reads (op : Op) : Op.withReads op (Op.reads op) = op := by
  cases op <;> rfl

theorem resolveReads_id (vn : List (Nat × String)) :
    ∀ reads : List VarRead, reads.all (fun r => r.name.isSome) = true →
      resolveReads vn reads = .ok reads := by
  intro reads
  induction reads with
  | nil => intro _; rfl
  | cons r rest ih =>
    intro h
    simp only [List.all_cons, Bool.and_eq_true] at h
    obtain ⟨h1, h2⟩ := h
    obtain ⟨nm, hn⟩ := Option.isSome_iff_exists.mp h1
    rw [resolveReads, show resolveRead vn r = .ok r by simp [resolveRead, hn], ih h2]

theorem resolveOps_id (vn : List (Nat × String)) :
    ∀ ops : List Op, (∀ op ∈ ops, (Op.reads op).all (fun r => r.name.isSome) = true) →
      resolveOps vn ops = .ok ops := by
  intro ops
  induction ops with
  | nil => intro _; rfl
  | cons op rest ih =>
    intro h
    have h1 : resolveOp vn op = .ok op := by
      simp only [resolveOp, resolveReads_id vn (Op.reads op) (h op (by simp)), withReads_reads]
    simp only [resolveOps, h1, ih fun q hq => h q (by simp [hq])]

theorem renamedOp_reads (op : Op) (h : renamedOp op = true) :
    (Op.reads op).all (fun r => r.name.isSome) = true := by
  rw [renamedOp.eq_def, Bool.and_eq_true] at h
  exact h.1

theorem addNames_noop_main : ∀ N : Nat,
    (∀ ops : List Op, sizeOf ops ≤ N →
      ∀ (sfx fn base : String) (st : Nat) (vn : List (Nat × String)),
        ops.all renamedOp = true →
        (collectUnitsOps ops).all unitOKB = true →
        ∃ vn', processOps false sfx fn base false ops st vn = .ok (ops, st, vn')) ∧
    (∀ u : CompilationUnit, sizeOf u ≤ N →
      ∀ (sfx base : String) (st : Nat),
        renamedUnit u = true →
        addNamesToView false sfx u base st = .ok (u, st)) := by
  intro N
  induction N using Nat.strong_induction_on with
  | _ N IH =>
    constructor
    · intro ops hsz sfx fn base st vn h1 h2
      cases ops with
      | nil => exact ⟨vn, rfl⟩
      | cons op rest =>
        simp only [List.all_cons, Bool.and_eq_true] at h1
        obtain ⟨h1a, h1b⟩ := h1
        have h2' : ((collectUnitsOp op).all unitOKB = true) ∧
            ((collectUnitsOps rest).all unitOKB = true) := by
          rw [show collectUnitsOps (op :: rest) = collectUnitsOp op ++ collectUnitsOps rest
            from by simp [collectUnitsOps]] at h2
          rw [List.all_append, Bool.and_eq_true] at h2
          exact h2
        have hszop : sizeOf op < N := by
          have := List.cons.sizeOf_spec op rest
          omega
        have hszrest : sizeOf rest < N := by
          have := List.cons.sizeOf_spec op rest
          omega
        have hop : ∃ vn2, processOp false sfx fn base false op st vn = .ok (op, st, vn2) := by
          cases op with
          | property nm anim reads =>
            have ha : anim = false := by
              simp only [renamedOp, Op.reads, Bool.and_eq_true, Bool.not_eq_true'] at h1a
              exact h1a.2
            exact ⟨vn, by simp [processOp, ha]⟩
          | hostProperty nm anim reads =>
            have ha : anim = false := by
              simp only [renamedOp, Op.reads, Bool.and_eq_true, Bool.not_eq_true'] at h1a
              exact h1a.2
            exact ⟨vn, by simp [processOp, ha]⟩
          | listener hfn slot tag nm isAnimL phase reads =>
            have ha : hfn.isSome = true := by
              simp only [renamedOp, Op.reads, Bool.and_eq_true] at h1a
              exact h1a.2
            obtain ⟨f, hf⟩ := Option.isSome_iff_exists.mp ha
            exact ⟨vn, by simp [processOp, hf]⟩
          | varDecl x v reads =>
            have ha : v.name.isSome = true := by
              simp only [renamedOp, Op.reads, Bool.and_eq_true] at h1a
              exact h1a.2
            obtain ⟨nm, hnm⟩ := Option.isSome_iff_exists.mp ha
            exact ⟨(x, nm) :: vn, by simp [processOp, getVariableName, hnm]⟩
          | template child slot tag ns reads =>
            have ha : slot.isSome = true := by
              simp only [renamedOp, Op.reads, Bool.and_eq_true] at h1a
              exact h1a.2
            obtain ⟨sl, hsl⟩ := Option.isSome_iff_exists.mp ha
            have hchild : renamedUnit child = true := by
              have := h2'.1
              rw [show collectUnitsOp (Op.template child slot tag ns reads) =
                collectUnits child from by simp [collectUnitsOp]] at this
              exact this
            have hszc : sizeOf child < N := by
              have h3 := Op.template.sizeOf_spec child slot tag ns reads
              omega
            have hrec := (IH (sizeOf child) hszc).2 child le_rfl sfx
              (base ++ "_" ++ tagWithNamespace tag ns ++ "_" ++ natToDecimal sl) st hchild
            exact ⟨vn, by simp [processOp, hsl, hrec]⟩
          | styleProp nm reads =>
            have ha : normalizeStylePropName nm = nm := by
              simp only [renamedOp, Op.reads, Bool.and_eq_true, beq_iff_eq] at h1a
              exact h1a.2
            exact ⟨vn, by simp [processOp, ha]⟩
          | classProp nm reads => exact ⟨vn, by simp [processOp]⟩
          | other reads => exact ⟨vn, by simp [processOp]⟩
        obtain ⟨vn2, hop⟩ := hop
        obtain ⟨vn3, hrest⟩ := (IH (sizeOf rest) hszrest).1 rest le_rfl sfx fn base st vn2
          h1b h2'.2
        exact ⟨vn3, by simp only [processOps, hop, hrest]⟩
    · intro u hsz sfx base st hren
      cases u with
      | mk fn0 hb ops =>
        have hdec : unitOKB (.mk fn0 hb ops) = true ∧
            (collectUnitsOps ops).all unitOKB = true := by
          rw [renamedUnit, show collectUnits (CompilationUnit.mk fn0 hb ops) =
            .mk fn0 hb ops :: collectUnitsOps ops from by simp [collectUnits],
            List.all_cons, Bool.and_eq_true] at hren
          exact hren
        have hhead := hdec.1
        simp only [unitOKB, CompilationUnit.fnNameOf, CompilationUnit.isHB,
          CompilationUnit.opsOf, Bool.and_eq_true, Bool.not_eq_true'] at hhead
        obtain ⟨⟨hfn, hhb⟩, hall⟩ := hhead
        obtain ⟨f, hf⟩ := Option.isSome_iff_exists.mp hfn
        have hszops : sizeOf ops < N := by
          have := CompilationUnit.mk.sizeOf_spec fn0 hb ops
          omega
        obtain ⟨vn', hops⟩ := (IH (sizeOf ops) hszops).1 ops le_rfl sfx f base st []
          hall hdec.2
        have hres : resolveOps vn' ops = .ok ops := by
          refine resolveOps_id vn' ops fun op hop => renamedOp_reads op ?_
          exact List.all_eq_true.mp hall op hop
        subst hf
        subst hhb
        rw [addNamesToView]
        simp only [hops, hres]

/-- C1 (amended): with every name already populated exactly as a completed
naming pass leaves them (unit function names, listener handler names,
variable names and read names non-null, Template slots assigned inside
component view units, style prop names already hyphen-normalized) and no
animation-trigger Property or HostProperty operation, a further run of the
naming phase outside compatibility mode returns the job unchanged; the
animation-trigger exclusion is forced by the counterexample, where a second
run prepends another at-sign. -/
theorem c1_second_pass_noop (job : CompilationJob)
    (hren : renamedUnit job.root = true)
    (hcompat : job.compatibility = .normal) :
    phaseNaming job = .ok job := by
  obtain ⟨root, cn, jsfx, compat⟩ := job
  simp only at hren hcompat
  subst hcompat
  have h := (addNames_noop_main (sizeOf root)).2 root le_rfl jsfx cn 0 hren
  rw [phaseNaming]
  simp only [show ((CompatibilityMode.normal == CompatibilityMode.templateDefinitionBuilder) : Bool)
    = false from rfl, h]

theorem collectVarsOp_withReads (op : Op) (reads : List VarRead) :
    collectVarsOp (Op.withReads op reads) = collectVarsOp op := by
  cases op <;> simp [Op.withReads, collectVarsOp]

theorem collectVars_resolveOps (vn : List (Nat × String)) :
    ∀ (l l2 : List Op), resolveOps vn l = .ok l2 →
      collectVarsOps l2 = collectVarsOps l := by
  intro l
  induction l with
  | nil =>
    intro l2 h
    simp only [resolveOps, Except.ok.injEq] at h
    rw [← h]
  | cons op rest ih =>
    intro l2 h
    rw [resolveOps] at h
    cases h1 : resolveOp vn op with
    | error e => rw [h1] at h; cases h
    | ok op' =>
      rw [h1] at h
      cases h2 : resolveOps vn rest with
      | error e => rw [h2] at h; cases h
      | ok rest' =>
        rw [h2] at h
        simp only [Except.ok.injEq] at h
        subst h
        rw [resolveOp] at h1
        cases h3 : resolveReads vn (Op.reads op) with
        | error e => rw [h3] at h1; cases h1
        | ok reads' =>
          rw [h3] at h1
          simp only [Except.ok.injEq] at h1
          subst h1
          rw [show collectVarsOps (Op.withReads op reads' :: rest') =
            collectVarsOp (Op.withReads op reads') ++ collectVarsOps rest'
            from by simp [collectVarsOps]]
          rw [show collectVarsOps (op :: rest) = collectVarsOp op ++ collectVarsOps rest
            from by simp [collectVarsOps]]
          rw [collectVarsOp_withReads, ih rest' h2]

theorem processOp_plain (compat : Bool) (sfx fn base : String) (hb : Bool) (op : Op)
    (st : Nat) (vn : List (Nat × String)) (op' : Op) (st' : Nat)
    (vn' : List (Nat × String))
    (hnv : ∀ x v reads, op ≠ .varDecl x v reads)
    (hnt : ∀ c sl t ns reads, op ≠ .template c sl t ns reads)
    (h : processOp compat sfx fn base hb op st vn = .ok (op', st', vn')) :
    st' = st ∧ collectVarsOp op' = [] := by
  cases op with
  | varDecl x v reads => exact absurd rfl (hnv x v reads)
  | template c sl t ns reads => exact absurd rfl (hnt c sl t ns reads)
  | property nm anim reads =>
    simp only [processOp, Except.ok.injEq, Prod.mk.injEq] at h
    obtain ⟨h1, h2, h3⟩ := h
    exact ⟨h2.symm, by rw [← h1]; simp [collectVarsOp]⟩
  | hostProperty nm anim reads =>
    simp only [processOp, Except.ok.injEq, Prod.mk.injEq] at h
    obtain ⟨h1, h2, h3⟩ := h
    exact ⟨h2.symm, by rw [← h1]; simp [collectVarsOp]⟩
  | listener hfn slot tag nm isAnimL phase reads =>
    simp only [processOp] at h
    split at h
    · simp only [Except.ok.injEq, Prod.mk.injEq] at h
      obtain ⟨h1, h2, h3⟩ := h
      exact ⟨h2.symm, by rw [← h1]; simp [collectVarsOp]⟩
    · split at h
      · simp only [Except.ok.injEq, Prod.mk.injEq] at h
        obtain ⟨h1, h2, h3⟩ := h
        exact ⟨h2.symm, by rw [← h1]; simp [collectVarsOp]⟩
      · split at h
        · cases h
        · split at h
          · simp only [Except.ok.injEq, Prod.mk.injEq] at h
            obtain ⟨h1, h2, h3⟩ := h
            exact ⟨h2.symm, by rw [← h1]; simp [collectVarsOp]⟩
          · simp only [Except.ok.injEq, Prod.mk.injEq] at h
            obtain ⟨h1, h2, h3⟩ := h
            exact ⟨h2.symm, by rw [← h1]; simp [collectVarsOp]⟩
  | styleProp nm reads =>
    simp only [processOp, Except.ok.injEq, Prod.mk.injEq] at h
    obtain ⟨h1, h2, h3⟩ := h
    exact ⟨h2.symm, by rw [← h1]; simp [collectVarsOp]⟩
  | classProp nm reads =>
    simp only [processOp, Except.ok.injEq, Prod.mk.injEq] at h
    obtain ⟨h1, h2, h3⟩ := h
    exact ⟨h2.symm, by rw [← h1]; simp [collectVarsOp]⟩
  | other reads =>
    simp only [processOp, Except.ok.injEq, Prod.mk.injEq] at h
    obtain ⟨h1, h2, h3⟩ := h
    exact ⟨h2.symm, by rw [← h1]; simp [collectVarsOp]⟩

theorem rangeGlue (st stMid stEnd : Nat) (h1 : st ≤ stMid) (h2 : stMid ≤ stEnd) :
    ((List.range' st (stMid - st)).map (some : Nat → Option Nat)) ++
      ((List.range' stMid (stEnd - stMid)).map some) =
    (List.range' st (stEnd - st)).map some := by
  rw [← List.map_append]
  congr 1
  have h3 := List.range'_append st (stMid - st) (stEnd - stMid) 1
  rw [one_mul] at h3
  rw [show st + (stMid - st) = stMid by omega] at h3
  rw [h3]
  congr 1
  omega

theorem collectVarsUnit_mk (fn : Option String) (hb : Bool) (ops : List Op) :
    collectVarsUnit (.mk fn hb ops) = collectVarsOps ops := by
  simp [collectVarsUnit]

theorem collectVarsOps_cons (op : Op) (rest : List Op) :
    collectVarsOps (op :: rest) = collectVarsOp op ++ collectVarsOps rest := by
  simp [collectVarsOps]

theorem varNaming_window_main : ∀ N : Nat,
    (∀ ops : List Op, sizeOf ops ≤ N →
      ∀ (compat : Bool) (sfx fn base : String) (hb : Bool) (st : Nat)
        (vn : List (Nat × String)) (ops1 : List Op) (st1 : Nat) (vn1 : List (Nat × String)),
        (collectVarsOps ops).all (fun v => v.name == none) = true →
        processOps compat sfx fn base hb ops st vn = .ok (ops1, st1, vn1) →
        st ≤ st1 ∧
        (collectVarsOps ops1).map nameIndexOf = (List.range' st (st1 - st)).map some ∧
        (∀ v ∈ collectVarsOps ops1, ∃ k, v.name = some (mkVarName v.kind v.identifier k))) ∧
    (∀ u : CompilationUnit, sizeOf u ≤ N →
      ∀ (compat : Bool) (sfx base : String) (st : Nat) (u' : CompilationUnit) (st1 : Nat),
        (collectVarsUnit u).all (fun v => v.name == none) = true →
        addNamesToView compat sfx u base st = .ok (u', st1) →
        st ≤ st1 ∧
        (collectVarsUnit u').map nameIndexOf = (List.range' st (st1 - st)).map some ∧
        (∀ v ∈ collectVarsUnit u', ∃ k, v.name = some (mkVarName v.kind v.identifier k))) := by
  intro N
  induction N using Nat.strong_induction_on with
  | _ N IH =>
    constructor
    · intro ops hsz compat sfx fn base hb st vn ops1 st1 vn1 hun hrun
      cases ops with
      | nil =>
        simp only [processOps, Except.ok.injEq, Prod.mk.injEq] at hrun
        obtain ⟨h1, h2, h3⟩ := hrun
        subst h1
        subst h2
        refine ⟨le_rfl, ?_, ?_⟩
        · simp [collectVarsOps, Nat.sub_self]
        · intro v hv
          rw [show collectVarsOps [] = [] from by simp [collectVarsOps]] at hv
          cases hv
      | cons op rest =>
        have hszrest : sizeOf rest < N := by
          have := List.cons.sizeOf_spec op rest
          omega
        have hun2 : ((collectVarsOp op).all (fun v => v.name == none) = true) ∧
            ((collectVarsOps rest).all (fun v => v.name == none) = true) := by
          rw [collectVarsOps_cons, List.all_append, Bool.and_eq_true] at hun
          exact hun
        rw [processOps] at hrun
        cases hstep : processOp compat sfx fn base hb op st vn with
        | error e => rw [hstep] at hrun; cases hrun
        | ok trip =>
          obtain ⟨op', st', vn'⟩ := trip
          simp only [hstep] at hrun
          cases hrest : processOps compat sfx fn base hb rest st' vn' with
          | error e => simp only [hrest] at hrun; cases hrun
          | ok trip2 =>
            obtain ⟨rest', st'', vn''⟩ := trip2
            simp only [hrest, Except.ok.injEq, Prod.mk.injEq] at hrun
            obtain ⟨hops1, hst1, hvn1⟩ := hrun
            subst hops1
            subst hst1
            obtain ⟨hle2, hmap2, hform2⟩ := (IH (sizeOf rest) hszrest).1 rest le_rfl
              compat sfx fn base hb st' vn' rest' st'' vn'' hun2.2 hrest
            have hhead : st ≤ st' ∧
                (collectVarsOp op').map nameIndexOf =
                  (List.range' st (st' - st)).map some ∧
                (∀ v ∈ collectVarsOp op', ∃ k,
                  v.name = some (mkVarName v.kind v.identifier k)) := by
              cases op with
              | varDecl x v reads =>
                have hname : v.name = none := by
                  have h5 := hun2.1
                  rw [show collectVarsOp (Op.varDecl x v reads) = [v]
                    from by simp [collectVarsOp], List.all_cons, Bool.and_eq_true] at h5
                  simpa using h5.1
                simp only [processOp, getVariableName, hname, Except.ok.injEq,
                  Prod.mk.injEq] at hstep
                obtain ⟨h1, h2, h3⟩ := hstep
                subst h2
                refine ⟨by omega, ?_, ?_⟩
                · rw [← h1, show collectVarsOp (Op.varDecl x
                      { v with name := some (mkVarName v.kind v.identifier st) } reads) =
                      [{ v with name := some (mkVarName v.kind v.identifier st) }]
                    from by simp [collectVarsOp]]
                  rw [show st + 1 - st = 1 by omega, List.range'_one]
                  simp [nameIndexOf, varIndexOf_mkVarName]
                · intro w hw
                  rw [← h1, show collectVarsOp (Op.varDecl x
                      { v with name := some (mkVarName v.kind v.identifier st) } reads) =
                      [{ v with name := some (mkVarName v.kind v.identifier st) }]
                    from by simp [collectVarsOp]] at hw
                  rw [List.mem_singleton] at hw
                  subst hw
                  exact ⟨st, rfl⟩
              | template child sl tag ns reads =>
                have hszc : sizeOf child < N := by
                  have h4 := Op.template.sizeOf_spec child sl tag ns reads
                  have h5 := List.cons.sizeOf_spec (Op.template child sl tag ns reads) rest
                  omega
                have hunc : (collectVarsUnit child).all (fun v => v.name == none) = true := by
                  have h5 := hun2.1
                  rwa [show collectVarsOp (Op.template child sl tag ns reads) =
                    collectVarsUnit child from by simp [collectVarsOp]] at h5
                cases hb with
                | true => simp [processOp] at hstep
                | false =>
                  cases sl with
                  | none => simp [processOp] at hstep
                  | some s =>
                    simp only [processOp, Bool.false_eq_true, if_false] at hstep
                    cases hchild : addNamesToView compat sfx child
                        (base ++ "_" ++ tagWithNamespace tag ns ++ "_" ++ natToDecimal s) st with
                    | error e => rw [hchild] at hstep; cases hstep
                    | ok cp =>
                      obtain ⟨child', stc⟩ := cp
                      rw [hchild] at hstep
                      simp only [Except.ok.injEq, Prod.mk.injEq] at hstep
                      obtain ⟨h1, h2, h3⟩ := hstep
                      obtain ⟨hlec, hmapc, hformc⟩ := (IH (sizeOf child) hszc).2 child le_rfl
                        compat sfx _ st child' stc hunc hchild
                      subst h2
                      refine ⟨hlec, ?_, ?_⟩
                      · rw [← h1, show collectVarsOp (Op.template child' (some s) tag ns reads) =
                          collectVarsUnit child' from by simp [collectVarsOp]]
                        exact hmapc
                      · intro w hw
                        rw [← h1, show collectVarsOp (Op.template child' (some s) tag ns reads) =
                          collectVarsUnit child' from by simp [collectVarsOp]] at hw
                        exact hformc w hw
              | property nm anim reads =>
                obtain ⟨hst, hcv⟩ := processOp_plain compat sfx fn base hb _ st vn op' st' vn'
                  (fun x v r h => Op.noConfusion h) (fun c a b c2 d h => Op.noConfusion h) hstep
                subst hst
                refine ⟨le_rfl, ?_, ?_⟩
                · rw [hcv, Nat.sub_self]
                  rfl
                · intro w hw
                  rw [hcv] at hw
                  cases hw
              | hostProperty nm anim reads =>
                obtain ⟨hst, hcv⟩ := processOp_plain compat sfx fn base hb _ st vn op' st' vn'
                  (fun x v r h => Op.noConfusion h) (fun c a b c2 d h => Op.noConfusion h) hstep
                subst hst
                refine ⟨le_rfl, ?_, ?_⟩
                · rw [hcv, Nat.sub_self]
                  rfl
                · intro w hw
                  rw [hcv] at hw
                  cases hw
              | listener hfn slot tag nm isAnimL phase reads =>
                obtain ⟨hst, hcv⟩ := processOp_plain compat sfx fn base hb _ st vn op' st' vn'
                  (fun x v r h => Op.noConfusion h) (fun c a b c2 d h => Op.noConfusion h) hstep
                subst hst
                refine ⟨le_rfl, ?_, ?_⟩
                · rw [hcv, Nat.sub_self]
                  rfl
                · intro w hw
                  rw [hcv] at hw
                  cases hw
              | styleProp nm reads =>
                obtain ⟨hst, hcv⟩ := processOp_plain compat sfx fn base hb _ st vn op' st' vn'
                  (fun x v r h => Op.noConfusion h) (fun c a b c2 d h => Op.noConfusion h) hstep
                subst hst
                refine ⟨le_rfl, ?_, ?_⟩
                · rw [hcv, Nat.sub_self]
                  rfl
                · intro w hw
                  rw [hcv] at hw
                  cases hw
              | classProp nm reads =>
                obtain ⟨hst, hcv⟩ := processOp_plain compat sfx fn base hb _ st vn op' st' vn'
                  (fun x v r h => Op.noConfusion h) (fun c a b c2 d h => Op.noConfusion h) hstep
                subst hst
                refine ⟨le_rfl, ?_, ?_⟩
                · rw [hcv, Nat.sub_self]
                  rfl
                · intro w hw
                  rw [hcv] at hw
                  cases hw
              | other reads =>
                obtain ⟨hst, hcv⟩ := processOp_plain compat sfx fn base hb _ st vn op' st' vn'
                  (fun x v r h => Op.noConfusion h) (fun c a b c2 d h => Op.noConfusion h) hstep
                subst hst
                refine ⟨le_rfl, ?_, ?_⟩
                · rw [hcv, Nat.sub_self]
                  rfl
                · intro w hw
                  rw [hcv] at hw
                  cases hw
            obtain ⟨hle1, hmap1, hform1⟩ := hhead
            refine ⟨le_trans hle1 hle2, ?_, ?_⟩
            · rw [collectVarsOps_cons, List.map_append, hmap1, hmap2,
                rangeGlue st st' st'' hle1 hle2]
            · intro v hv
              rw [collectVarsOps_cons] at hv
              rcases List.mem_append.mp hv with h | h
              · exact hform1 v h
              · exact hform2 v h
    · intro u hsz compat sfx base st u' st1 hun hrun
      cases u with
      | mk fn0 hb ops =>
        have hszops : sizeOf ops < N := by
          have := CompilationUnit.mk.sizeOf_spec fn0 hb ops
          omega
        have hun' : (collectVarsOps ops).all (fun v => v.name == none) = true := by
          rwa [collectVarsUnit_mk] at hun
        cases fn0 with
        | none =>
          simp only [addNamesToView] at hrun
          cases hops : processOps compat sfx (sanitizeIdentifier (base ++ "_" ++ sfx))
              base hb ops st [] with
          | error e => rw [hops] at hrun; cases hrun
          | ok trip =>
            obtain ⟨ops1, st1', vn⟩ := trip
            simp only [hops] at hrun
            cases hres : resolveOps vn ops1 with
            | error e => simp only [hres] at hrun; cases hrun
            | ok ops2 =>
              simp only [hres, Except.ok.injEq, Prod.mk.injEq] at hrun
              obtain ⟨hu', hst1⟩ := hrun
              obtain ⟨hle, hmap, hform⟩ := (IH (sizeOf ops) hszops).1 ops le_rfl compat sfx _ base
                hb st [] ops1 st1' vn hun' hops
              subst hst1
              refine ⟨hle, ?_, ?_⟩
              · rw [← hu', collectVarsUnit_mk, collectVars_resolveOps vn ops1 ops2 hres]
                exact hmap
              · intro v hv
                rw [← hu', collectVarsUnit_mk, collectVars_resolveOps vn ops1 ops2 hres] at hv
                exact hform v hv
        | some f =>
          simp only [addNamesToView] at hrun
          cases hops : processOps compat sfx f base hb ops st [] with
          | error e => rw [hops] at hrun; cases hrun
          | ok trip =>
            obtain ⟨ops1, st1', vn⟩ := trip
            simp only [hops] at hrun
            cases hres : resolveOps vn ops1 with
            | error e => simp only [hres] at hrun; cases hrun
            | ok ops2 =>
              simp only [hres, Except.ok.injEq, Prod.mk.injEq] at hrun
              obtain ⟨hu', hst1⟩ := hrun
              obtain ⟨hle, hmap, hform⟩ := (IH (sizeOf ops) hszops).1 ops le_rfl compat sfx _ base
                hb st [] ops1 st1' vn hun' hops
              subst hst1
              refine ⟨hle, ?_, ?_⟩
              · rw [← hu', collectVarsUnit_mk, collectVars_resolveOps vn ops1 ops2 hres]
                exact hmap
              · intro v hv
                rw [← hu', collectVarsUnit_mk, collectVars_resolveOps vn ops1 ops2 hres] at hv
                exact hform v hv

/-- C2: when the naming phase runs on a job whose variables are all still
unnamed (the state in which the phase runs), every variable receives a name
of the stated shape (ctx_r index for context variables, identifier,
underscore, index for named identifiers, underscore r index otherwise)
drawn from one counter shared across the root unit and all nested child
views, and any two variables named during the job (in particular context
variables declared in two different nested views) receive distinct
names. -/
theorem c2_variable_names_unique (job job' : CompilationJob)
    (hun : allVarsUnnamed job.root = true)
    (hrun : phaseNaming job = .ok job') :
    ((collectVarsUnit job'.root).map SemanticVariable.name).Nodup ∧
    (∀ v ∈ collectVarsUnit job'.root, ∃ k,
      v.name = some (mkVarName v.kind v.identifier k)) := by
  rw [phaseNaming] at hrun
  cases h : addNamesToView (job.compatibility == CompatibilityMode.templateDefinitionBuilder)
      job.fnSuffix job.root job.componentName 0 with
  | error e => rw [h] at hrun; cases hrun
  | ok rp =>
    obtain ⟨root', st1⟩ := rp
    simp only [h, Except.ok.injEq] at hrun
    have hroot : job'.root = root' := by rw [← hrun]
    obtain ⟨hle, hmap, hform⟩ := (varNaming_window_main (sizeOf job.root)).2 job.root le_rfl
      (job.compatibility == CompatibilityMode.templateDefinitionBuilder) job.fnSuffix
      job.componentName 0 root' st1 (by rwa [allVarsUnnamed] at hun) h
    rw [hroot]
    constructor
    · have h1 : (((collectVarsUnit root').map SemanticVariable.name).map optNameIndex) =
          (List.range' 0 (st1 - 0)).map some := by
        rw [List.map_map]
        exact hmap
      have h2 : ((((collectVarsUnit root').map SemanticVariable.name)).map optNameIndex).Nodup := by
        rw [h1]
        exact List.Nodup.map (Option.some_injective Nat) (List.nodup_range' 0 _)
      exact List.Nodup.of_map optNameIndex h2
    · exact hform

theorem c1_second_pass_noop_witness :
    renamedUnit warmJob.root = true ∧ warmJob.compatibility = CompatibilityMode.normal ∧
      phaseNaming warmJob = .ok warmJob := by
  have hren : renamedUnit warmJob.root = true := by
    simp [renamedUnit, collectUnits, collectUnitsOps, collectUnitsOp, unitOKB, renamedOp,
      warmJob, CompilationUnit.fnNameOf, CompilationUnit.isHB, CompilationUnit.opsOf, Op.reads,
      normalizeStylePropName, hyphenate, hyphenateCore, startsWithChars]
  exact ⟨hren, rfl, c1_second_pass_noop warmJob hren rfl⟩

theorem c2_variable_names_unique_witness :
    allVarsUnnamed freshJob.root = true ∧ phaseNaming freshJob = .ok freshJobAfter ∧
      ((collectVarsUnit freshJobAfter.root).map SemanticVariable.name).Nodup ∧
      (∀ v ∈ collectVarsUnit freshJobAfter.root, ∃ k,
        v.name = some (mkVarName v.kind v.identifier k)) := by
  have hun : allVarsUnnamed freshJob.root = true := by
    simp [allVarsUnnamed, collectVarsUnit, collectVarsOps, collectVarsOp, freshJob, freshCtxVar]
  have hrun : phaseNaming freshJob = .ok freshJobAfter := by
    simp [phaseNaming, addNamesToView, processOps, processOp, resolveOps, resolveOp, resolveReads,
      Op.reads, Op.withReads, getVariableName, mkVarName, tagWithNamespace, natToDecimal,
      natDigitsCore, digitChar, freshJob, freshJobAfter, freshCtxVar]
    decide
  obtain ⟨h1, h2⟩ := c2_variable_names_unique freshJob freshJobAfter hun hrun
  exact ⟨hun, hrun, h1, h2⟩

theorem c3_variable_read_resolution_witness :
    processOps false "Template" "MyCmp_Template" "MyCmp" false readOpsGood 0 [] =
      .ok (c3ops1, 1, [(5, "ctx_r0")]) ∧
    addNamesToView false "Template" (.mk (some "MyCmp_Template") false readOpsGood) "MyCmp" 0 =
      .ok (.mk (some "MyCmp_Template") false
        [.varDecl 5 { kind := .context, name := some "ctx_r0", identifier := "ctx" } [],
         .other [{ xref := 5, name := some "ctx_r0" }]], 1) := by
  have h1 : processOps false "Template" "MyCmp_Template" "MyCmp" false readOpsGood 0 [] =
      .ok (c3ops1, 1, [(5, "ctx_r0")]) := by
    simp [processOps, processOp, getVariableName, mkVarName, natToDecimal, natDigitsCore,
      digitChar, readOpsGood, freshCtxVar, c3ops1]
  have hres : ∀ op1 ∈ c3ops1, ∀ r ∈ Op.reads op1, r.name = none →
      (lookupVarName [(5, "ctx_r0")] r.xref).isSome = true := by decide
  have h2 := (c3_variable_read_resolution false "Template" "MyCmp_Template" "MyCmp" false
    readOpsGood 0 c3ops1 1 [(5, "ctx_r0")] h1).1 hres
  refine ⟨h1, ?_⟩
  rw [h2]
  simp [resolveSpec, readSpec, Op.withReads, Op.reads, lookupVarName, c3ops1]

theorem c4_listener_handler_naming_witness :
    ((false : Bool) && false) = false ∧
    processOp false "Template" "MyCmp_Template" "MyCmp" false
      (.listener none none (some "my-tag") "click" false "start" []) 0 [] =
      .error (.internal "Expected a slot to be assigned") := by
  refine ⟨rfl, ?_⟩
  exact (c4_listener_handler_naming false "Template" "MyCmp_Template" "MyCmp" false
    (some "my-tag") "click" "start" false [] 0 [] rfl).1

theorem c6_for_track_required_witness :
    matchForOf "item of items" = some ("item", "items") ∧
    (∀ p ∈ (["let i = $index"] : List String), matchTrack p = none) ∧
    "For loop must have a \"track\" expression" ∈
      (parseForLoopParameters ["item of items", "let i = $index"]).1 ∧
    (parseForLoopParameters ["item of items", "let i = $index"]).2 = none := by
  have h1 : matchForOf "item of items" = some ("item", "items") := by decide
  have h2 : ∀ p ∈ (["let i = $index"] : List String), matchTrack p = none := by decide
  obtain ⟨h3, h4⟩ := c6_for_track_required "item of items" ["let i = $index"] "item" "items" h1 h2
  exact ⟨h1, h2, h3, h4⟩

theorem c7_switch_single_default_witness :
    ("Switch block can only have one \"default\" block" ∈
      (parseSwitchBlock ["cond"] [.defaultBlock [], .defaultBlock []]).1 ∧
      (parseSwitchBlock ["cond"] [.defaultBlock [], .defaultBlock []]).2 = none) ∧
    parseSwitchBlock ["cond"]
        ([SwitchSecondary.caseBlock ["x()"]] ++ SwitchSecondary.defaultBlock [] ::
          [SwitchSecondary.caseBlock ["42"]]) =
      ([], some ⟨"cond",
        [SwitchSecondary.caseBlock ["x()"]].map SwitchSecondary.caseExprOf ++
          none :: [SwitchSecondary.caseBlock ["42"]].map SwitchSecondary.caseExprOf⟩) := by
  have hpre : ∀ b ∈ [SwitchSecondary.caseBlock ["x()"]], ∃ p,
      b = SwitchSecondary.caseBlock [p] := by
    intro b hb
    rw [List.mem_singleton] at hb
    exact ⟨"x()", hb⟩
  have hpost : ∀ b ∈ [SwitchSecondary.caseBlock ["42"]], ∃ p,
      b = SwitchSecondary.caseBlock [p] := by
    intro b hb
    rw [List.mem_singleton] at hb
    exact ⟨"42", hb⟩
  have htwo : 2 ≤ ([SwitchSecondary.defaultBlock [], SwitchSecondary.defaultBlock []] :
      List SwitchSecondary).countP (fun b => b.isDefault) := by decide
  exact c7_switch_single_default ["cond"] [.defaultBlock [], .defaultBlock []] "cond"
    [SwitchSecondary.caseBlock ["x()"]] [SwitchSecondary.caseBlock ["42"]] htwo hpre hpost

theorem c9_defer_trigger_uniqueness_witness :
    (∃ k : DeferTriggerKind, validateDeferTriggers
        [{ prefetch := false, kind := .idle }, { prefetch := false, kind := .idle }] =
      .error (.templateErr ("Duplicate \"" ++ k.keyName ++ "\" trigger is not allowed"))) ∧
    validateDeferTriggers
        [{ prefetch := false, kind := .immediate }, { prefetch := true, kind := .immediate }] =
      .ok ([.immediate], [.immediate]) := by
  refine ⟨(c9_defer_trigger_uniqueness
      [{ prefetch := false, kind := .idle }, { prefetch := false, kind := .idle }]).2.1
      (Or.inl ?_),
    (c9_defer_trigger_uniqueness
      [{ prefetch := false, kind := .immediate }, { prefetch := true, kind := .immediate }]).2.2⟩
  decide

end Ng
